import Mathlib

/-!
# Game Boy memory subsystem (`src/mem.cpp`, `src/sdl.cpp`)

A shallow embedding of the memory-management unit of the emulator and proofs of
properties of its read, write and bank-switch operations.

Conventions of the embedding

* C integers are natural numbers; where the C arithmetic can wrap, the
  reduction modulo `2 ^ w` is written out.
* The file-scope variables of `mem.cpp` are the fields of `State`, under their
  C names.  The two pointers into the ROM image (`rom0`, `romx`) are
  represented by their byte offset from `rom_getbytes()`.
* The backing store `mem` is a function from index to byte.  The C buffer has
  `0x10000` bytes, so only the indices below `0x10000` belong to it.
* Calls into the other modules (mapper decoders, peripheral getters and
  setters) are recorded, in order, in the field `calls`.
-/

namespace GameBoy

/-! ## Collaborators -/

/-- Modelled from the spec: the mapper family tag of `rom.h`, whose declaration
is not part of the sources.  The four named tags are the ones `mem_write_byte`
switches on; `other` stands for any further tag, for which the switch has no
case. -/
inductive Mapper where
  | NROM
  | MBC1
  | MBC2
  | MBC3
  | other
  deriving DecidableEq, Repr

/-- The ROM interface of `rom.h`: `rom_getbytes()` (the byte found at each
offset from the start of the image) and `rom_get_mapper()`. -/
structure Rom where
  bytes : Nat → Nat
  mapper : Mapper

/-- Modelled from the spec: the outcome of one call of a mapper write decoder
(`MBC1_write_byte`, `MBC3_write_byte` of `mbc.h`, not part of the sources).
The decoder returns whether the write is filtered (non-zero) and performs its
bank-switch side effects through `mem_bank_switch`; `switches` lists the bank
indices it passes, in call order. -/
structure MbcResult where
  filtered : Nat
  switches : List Nat

/-- The static button variables of `sdl.cpp`. -/
structure Buttons where
  button_start : Nat
  button_select : Nat
  button_a : Nat
  button_b : Nat
  button_down : Nat
  button_up : Nat
  button_left : Nat
  button_right : Nat

/-- Modelled from the spec: what the collaborators answer at the time of one
MMU operation.  `cycles` is the CPU cycle counter, the `MBC*_write_byte` fields
are the mapper write decoders, the remaining numeric fields are the values the
peripheral getters return, and `buttons` is the input state of `sdl.cpp`. -/
structure Env where
  cycles : Nat
  MBC1_write_byte : Nat → Nat → MbcResult
  MBC3_write_byte : Nat → Nat → MbcResult
  timer_get_div : Nat
  timer_get_counter : Nat
  timer_get_modulo : Nat
  timer_get_tac : Nat
  interrupt_get_IF : Nat
  lcd_get_stat : Nat
  lcd_get_line : Nat
  interrupt_get_mask : Nat
  buttons : Buttons

/-- One call from the MMU into another module. -/
inductive Call where
  | MBC1_write_byte (d i : Nat)
  | MBC3_write_byte (d i : Nat)
  | sdl_get_buttons
  | sdl_get_directions
  | timer_get_div
  | timer_get_counter
  | timer_get_modulo
  | timer_get_tac
  | interrupt_get_IF
  | lcd_get_stat
  | lcd_get_line
  | interrupt_get_mask
  | timer_set_div (i : Nat)
  | timer_set_counter (i : Nat)
  | timer_set_modulo (i : Nat)
  | timer_set_tac (i : Nat)
  | interrupt_set_IF (i : Nat)
  | lcd_write_control (i : Nat)
  | lcd_write_stat (i : Nat)
  | lcd_write_scroll_y (i : Nat)
  | lcd_write_scroll_x (i : Nat)
  | lcd_set_ly_compare (i : Nat)
  | lcd_write_bg_palette (i : Nat)
  | lcd_write_spr_palette1 (i : Nat)
  | lcd_write_spr_palette2 (i : Nat)
  | lcd_set_window_y (i : Nat)
  | lcd_set_window_x (i : Nat)
  | interrupt_set_mask (i : Nat)
  deriving DecidableEq, Repr

/-- The value of `cpu_get_cycles()`, a 32-bit unsigned counter. -/
def cpu_get_cycles (env : Env) : Nat :=
  env.cycles % 2 ^ 32

/-- The function `sdl_get_buttons` of `sdl.cpp`. -/
def sdl_get_buttons (b : Buttons) : Nat :=
  ((b.button_start <<< 3) ||| (b.button_select <<< 2) ||| (b.button_b <<< 1) ||| b.button_a)
    % 2 ^ 32

/-- The function `sdl_get_directions` of `sdl.cpp`. -/
def sdl_get_directions (b : Buttons) : Nat :=
  ((b.button_down <<< 3) ||| (b.button_up <<< 2) ||| (b.button_left <<< 1) ||| b.button_right)
    % 2 ^ 32

/-! ## MMU state -/

/-- The file-scope state of `mem.cpp`, plus the record of outgoing calls. -/
structure State where
  sram_dirty : Nat
  sram_seq : Nat
  rom0 : Nat
  romx : Nat
  romx_bank : Nat
  mem : Nat → Nat
  DMA_pending : Nat
  joypad_select_buttons : Nat
  joypad_select_directions : Nat
  bank_switches : Nat
  calls : List Call

/-- Record a call to another module. -/
def State.call (s : State) (c : Call) : State :=
  { s with calls := s.calls ++ [c] }

/-- The assignment `m[k] = v` on a byte buffer. -/
def store (m : Nat → Nat) (k v : Nat) : Nat → Nat :=
  fun j => if j = k then v else m j

/-- The call `memcpy(&m[dst], &m[src], n)` for ranges that are disjoint or
identical: the `n` bytes from `dst` on become the old bytes from `src` on. -/
def memcpy (m : Nat → Nat) (dst src n : Nat) : Nat → Nat :=
  fun j => if dst ≤ j ∧ j < dst + n then m (src + (j - dst)) else m j

/-- The function `mem_sram_dirty`. -/
def mem_sram_dirty (s : State) : Nat :=
  s.sram_dirty

/-- The function `mem_sram_clear_dirty`. -/
def mem_sram_clear_dirty (s : State) : State :=
  { s with sram_dirty := 0 }

/-- The function `mem_sram_seq`. -/
def mem_sram_seq (s : State) : Nat :=
  s.sram_seq

/-- The function `mem_get_bank_switches`. -/
def mem_get_bank_switches (s : State) : Nat :=
  s.bank_switches

/-- The function `mem_get_raw`. -/
def mem_get_raw (s : State) : Nat → Nat :=
  s.mem

/-- The function `mem_bank_switch`: the counter and the offset `n * 0x4000` are 32-bit
unsigned. -/
def mem_bank_switch (s : State) (n : Nat) : State :=
  { s with
    bank_switches := (s.bank_switches + 1) % 2 ^ 32
    romx_bank := n
    romx := (n * 0x4000) % 2 ^ 32 }

/-- The static initialisers of `mem.cpp`: the state in which the program calls
`gameboy_mem_init`.  The three pointers are null there and are only used
after `gameboy_mem_init` has set them; they appear as offset 0 and as an
all-zero buffer. -/
def boot : State :=
  { sram_dirty := 0
    sram_seq := 0
    rom0 := 0
    romx := 0
    romx_bank := 1
    mem := fun _ => 0
    DMA_pending := 0
    joypad_select_buttons := 0
    joypad_select_directions := 0
    bank_switches := 0
    calls := [] }

/-- The power-up register defaults written by `gameboy_mem_init`, in source
order. -/
def power_up_defaults : List (Nat × Nat) :=
  [(0xFF10, 0x80), (0xFF11, 0xBF), (0xFF12, 0xF3), (0xFF14, 0xBF), (0xFF16, 0x3F),
   (0xFF19, 0xBF), (0xFF1A, 0x7F), (0xFF1B, 0xFF), (0xFF1C, 0x9F), (0xFF1E, 0xBF),
   (0xFF20, 0xFF), (0xFF23, 0xBF), (0xFF24, 0x77), (0xFF25, 0xF3), (0xFF26, 0xF1),
   (0xFF40, 0x91), (0xFF47, 0xFC), (0xFF48, 0xFF), (0xFF49, 0xFF)]

/-- The function `gameboy_mem_init`: a fresh zeroed backing store, the ROM views, the SRAM
tracking and the register defaults.  The variables the function does not
assign keep their value. -/
def gameboy_mem_init (s : State) : State :=
  { s with
    mem := power_up_defaults.foldl (fun m kv => store m kv.1 kv.2) (fun _ => 0)
    rom0 := 0
    romx_bank := 1
    romx := 0x4000
    sram_dirty := 0
    sram_seq := 0 }

/-! ## Reads -/

/-- The case `0xFF00` of `mem_get_byte`: the mask is taken from the buttons
when the button select line is low, then from the directions when the
direction select line is low. -/
def joypad_read (env : Env) (s : State) : Nat × State :=
  let mask0 := 0
  let mask1 := if s.joypad_select_buttons = 0 then sdl_get_buttons env.buttons % 256 else mask0
  let s1 := if s.joypad_select_buttons = 0 then s.call Call.sdl_get_buttons else s
  let mask2 :=
    if s.joypad_select_directions = 0 then sdl_get_directions env.buttons % 256 else mask1
  let s2 := if s.joypad_select_directions = 0 then s1.call Call.sdl_get_directions else s1
  ((0xC0 ||| (0xF ^^^ mask2) ||| (s.joypad_select_buttons ||| s.joypad_select_directions))
      % 256, s2)

/-- The `switch` of `mem_get_byte`, reached for an address at or above
`0xFF00`. -/
def io_read (env : Env) (s : State) (i : Nat) : Nat × State :=
  if i = 0xFF00 then joypad_read env s
  else if i = 0xFF04 then (env.timer_get_div % 256, s.call Call.timer_get_div)
  else if i = 0xFF05 then (env.timer_get_counter % 256, s.call Call.timer_get_counter)
  else if i = 0xFF06 then (env.timer_get_modulo % 256, s.call Call.timer_get_modulo)
  else if i = 0xFF07 then (env.timer_get_tac % 256, s.call Call.timer_get_tac)
  else if i = 0xFF0F then (env.interrupt_get_IF % 256, s.call Call.interrupt_get_IF)
  else if i = 0xFF41 then (env.lcd_get_stat % 256, s.call Call.lcd_get_stat)
  else if i = 0xFF44 then (env.lcd_get_line % 256, s.call Call.lcd_get_line)
  else if i = 0xFF4D then (0xFF, s)
  else if i = 0xFFFF then (env.interrupt_get_mask % 256, s.call Call.interrupt_get_mask)
  else (s.mem i, s)

/-- The number of cycles since the DMA trigger, as `mem_get_byte` computes it:
a 32-bit unsigned difference. -/
def dma_elapsed (env : Env) (s : State) : Nat :=
  (cpu_get_cycles env + 2 ^ 32 - s.DMA_pending % 2 ^ 32) % 2 ^ 32

/-- The tail of `mem_get_byte`, after the DMA check: the backing store below
`0xFF00`, the register `switch` from there on. -/
def decode_high (env : Env) (s : State) (i : Nat) : Nat × State :=
  if i < 0xFF00 then (s.mem i, s)
  else io_read env s i

/-- The function `mem_get_byte`: the byte read and the state after the read. -/
def mem_get_byte (rom : Rom) (env : Env) (s : State) (i : Nat) : Nat × State :=
  if i < 0x4000 then (rom.bytes (s.rom0 + i), s)
  else if i < 0x8000 then (rom.bytes (s.romx + (i - 0x4000)), s)
  else if s.DMA_pending ≠ 0 ∧ i < 0xFF80 then
    if dma_elapsed env s ≥ 160 then decode_high env { s with DMA_pending := 0 } i
    else (s.mem (0xFE00 + dma_elapsed env s), s)
  else decode_high env s i

/-- The function `mem_get_word`: the word read and the state after the read. -/
def mem_get_word (rom : Rom) (env : Env) (s : State) (i : Nat) : Nat × State :=
  if i < 0x8000 then
    let lo := mem_get_byte rom env s i
    let hi := mem_get_byte rom env lo.2 ((i + 1) % 0x10000)
    ((lo.1 ||| (hi.1 <<< 8)) % 0x10000, hi.2)
  else ((s.mem i ||| (s.mem (i + 1) <<< 8)) % 0x10000, s)

/-! ## Writes -/

/-- The first `switch` of `mem_write_byte`: which decoder is asked, and what it
answers. -/
def mapper_decode (rom : Rom) (env : Env) (d i : Nat) : MbcResult × List Call :=
  match rom.mapper with
  | Mapper.NROM => (⟨if d < 0x8000 then 1 else 0, []⟩, [])
  | Mapper.MBC2 => (env.MBC3_write_byte d i, [Call.MBC3_write_byte d i])
  | Mapper.MBC3 => (env.MBC3_write_byte d i, [Call.MBC3_write_byte d i])
  | Mapper.MBC1 => (env.MBC1_write_byte d i, [Call.MBC1_write_byte d i])
  | Mapper.other => (⟨0, []⟩, [])

/-- The second `switch` of `mem_write_byte`, reached by an unfiltered write. -/
def io_write (env : Env) (s : State) (d i : Nat) : State :=
  if d = 0xFF00 then
    { s with joypad_select_buttons := i &&& 0x20, joypad_select_directions := i &&& 0x10 }
  else if d = 0xFF04 then s.call (Call.timer_set_div i)
  else if d = 0xFF05 then s.call (Call.timer_set_counter i)
  else if d = 0xFF06 then s.call (Call.timer_set_modulo i)
  else if d = 0xFF07 then s.call (Call.timer_set_tac i)
  else if d = 0xFF0F then s.call (Call.interrupt_set_IF i)
  else if d = 0xFF40 then s.call (Call.lcd_write_control i)
  else if d = 0xFF41 then s.call (Call.lcd_write_stat i)
  else if d = 0xFF42 then s.call (Call.lcd_write_scroll_y i)
  else if d = 0xFF43 then s.call (Call.lcd_write_scroll_x i)
  else if d = 0xFF45 then s.call (Call.lcd_set_ly_compare i)
  else if d = 0xFF46 then
    { s with mem := memcpy s.mem 0xFE00 (i * 0x100) 0xA0, DMA_pending := cpu_get_cycles env }
  else if d = 0xFF47 then s.call (Call.lcd_write_bg_palette i)
  else if d = 0xFF48 then s.call (Call.lcd_write_spr_palette1 i)
  else if d = 0xFF49 then s.call (Call.lcd_write_spr_palette2 i)
  else if d = 0xFF4A then s.call (Call.lcd_set_window_y i)
  else if d = 0xFF4B then s.call (Call.lcd_set_window_x i)
  else if d = 0xFFFF then s.call (Call.interrupt_set_mask i)
  else s

/-- The state after the mapper decoder has run: its call is recorded and its
bank switches are performed. -/
def after_decode (rom : Rom) (env : Env) (s : State) (d i : Nat) : State :=
  (mapper_decode rom env d i).1.switches.foldl mem_bank_switch
    { s with calls := s.calls ++ (mapper_decode rom env d i).2 }

/-- The function `mem_write_byte`. -/
def mem_write_byte (rom : Rom) (env : Env) (s : State) (d i : Nat) : State :=
  let filtered := (mapper_decode rom env d i).1.filtered
  let s1 := after_decode rom env s d i
  if filtered ≠ 0 then
    if d ≥ 0xA000 ∧ d ≤ 0xBFFF then
      if s1.mem d ≠ i then
        { s1 with sram_dirty := 1, sram_seq := (s1.sram_seq + 1) % 2 ^ 32, mem := store s1.mem d i }
      else s1
    else s1
  else
    let s2 := io_write env s1 d i
    if d = 0xFFFF then s2
    else
      let s3 :=
        if d ≥ 0xA000 ∧ d ≤ 0xBFFF then
          if s2.mem d ≠ i then
            { s2 with sram_dirty := 1, sram_seq := (s2.sram_seq + 1) % 2 ^ 32 }
          else s2
        else s2
      { s3 with mem := store s3.mem d i }

/-- The function `mem_write_word`. -/
def mem_write_word (s : State) (d i : Nat) : State :=
  let s1 :=
    if (d ≥ 0xA000 ∧ d ≤ 0xBFFF) ∨ (d + 1 ≥ 0xA000 ∧ d + 1 ≤ 0xBFFF) then
      { s with sram_dirty := 1, sram_seq := (s.sram_seq + 1) % 2 ^ 32 }
    else s
  let s2 := { s1 with mem := store s1.mem d (i &&& 0xFF) }
  { s2 with mem := store s2.mem (d + 1) ((i >>> 8) % 256) }

/-! ## Operations as data -/

/-- One MMU operation other than initialisation, with the collaborators' state
at the time it runs. -/
inductive Op where
  | get_byte (env : Env) (i : Nat)
  | get_word (env : Env) (i : Nat)
  | write_byte (env : Env) (d i : Nat)
  | write_word (d i : Nat)
  | bank_switch (n : Nat)
  | sram_clear_dirty

/-- The state after one operation. -/
def Op.run (rom : Rom) (s : State) : Op → State
  | Op.get_byte env i => (mem_get_byte rom env s i).2
  | Op.get_word env i => (mem_get_word rom env s i).2
  | Op.write_byte env d i => mem_write_byte rom env s d i
  | Op.write_word d i => mem_write_word s d i
  | Op.bank_switch n => mem_bank_switch s n
  | Op.sram_clear_dirty => mem_sram_clear_dirty s

/-- The states reached after initialisation: `gameboy_mem_init` from any
prior state, followed by any number of operations. -/
inductive Reachable (rom : Rom) : State → Prop where
  | init (s : State) : Reachable rom (gameboy_mem_init s)
  | step (s : State) (op : Op) : Reachable rom s → Reachable rom (op.run rom s)

/-! ## Backing-store indices touched by the reads, the word write and the DMA copy

The backing store is the `0x10000`-byte buffer allocated by `gameboy_mem_init`;
the functions below list, in source order, the indices at which an operation
subscripts `mem`. -/

/-- The size of the buffer `calloc(1, 0x10000)` of `gameboy_mem_init`. -/
def mem_size : Nat :=
  0x10000

/-- The index read by the `switch` of `mem_get_byte`: the register cases read
no backing-store byte, the fall-through reads `mem[i]`. -/
def io_read_idx (i : Nat) : List Nat :=
  if i = 0xFF00 then []
  else if i = 0xFF04 then []
  else if i = 0xFF05 then []
  else if i = 0xFF06 then []
  else if i = 0xFF07 then []
  else if i = 0xFF0F then []
  else if i = 0xFF41 then []
  else if i = 0xFF44 then []
  else if i = 0xFF4D then []
  else if i = 0xFFFF then []
  else [i]

/-- The index read by the tail of `mem_get_byte`. -/
def decode_high_idx (i : Nat) : List Nat :=
  if i < 0xFF00 then [i]
  else io_read_idx i

/-- The backing-store indices read by `mem_get_byte`: none for the two ROM
ranges, `0xFE00 + elapsed` for an overlaid read, the decoded index otherwise. -/
def mem_get_byte_idx (env : Env) (s : State) (i : Nat) : List Nat :=
  if i < 0x4000 then []
  else if i < 0x8000 then []
  else if s.DMA_pending ≠ 0 ∧ i < 0xFF80 then
    if dma_elapsed env s ≥ 160 then decode_high_idx i
    else [0xFE00 + dma_elapsed env s]
  else decode_high_idx i

/-- The backing-store indices read by `mem_get_word`. -/
def mem_get_word_idx (rom : Rom) (env : Env) (s : State) (i : Nat) : List Nat :=
  if i < 0x8000 then
    mem_get_byte_idx env s i ++
      mem_get_byte_idx env (mem_get_byte rom env s i).2 ((i + 1) % 0x10000)
  else [i, i + 1]

/-- The backing-store indices written by `mem_write_word`. -/
def mem_write_word_idx (d : Nat) : List Nat :=
  [d, d + 1]

/-- The indices read by the `memcpy` of the case `0xFF46`, for the value `i`
written. -/
def dma_copy_src (i : Nat) : List Nat :=
  (List.range 0xA0).map (fun k => i * 0x100 + k)

/-- The indices written by the `memcpy` of the case `0xFF46`. -/
def dma_copy_dst : List Nat :=
  (List.range 0xA0).map (fun k => 0xFE00 + k)

/-! ## Statement-level traces of the writes

The states of the file-scope variables during a write, in program order: the
first entry is the state before the write, then one entry after the first
`switch` (the mapper decoder), one after the second `switch`, and one after
each assignment to `sram_dirty`, `sram_seq` and `mem`. -/

/-- The states `mem_write_byte` passes through, statement by statement. -/
def mem_write_byte_trace (rom : Rom) (env : Env) (s : State) (d i : Nat) : List State :=
  let filtered := (mapper_decode rom env d i).1.filtered
  let s1 := after_decode rom env s d i
  if filtered ≠ 0 then
    if d ≥ 0xA000 ∧ d ≤ 0xBFFF then
      if s1.mem d ≠ i then
        [s, s1,
          { s1 with sram_dirty := 1 },
          { s1 with sram_dirty := 1, sram_seq := (s1.sram_seq + 1) % 2 ^ 32 },
          { s1 with
            sram_dirty := 1, sram_seq := (s1.sram_seq + 1) % 2 ^ 32, mem := store s1.mem d i }]
      else [s, s1]
    else [s, s1]
  else
    let s2 := io_write env s1 d i
    if d = 0xFFFF then [s, s1, s2]
    else
      if d ≥ 0xA000 ∧ d ≤ 0xBFFF then
        if s2.mem d ≠ i then
          [s, s1, s2,
            { s2 with sram_dirty := 1 },
            { s2 with sram_dirty := 1, sram_seq := (s2.sram_seq + 1) % 2 ^ 32 },
            { s2 with
              sram_dirty := 1, sram_seq := (s2.sram_seq + 1) % 2 ^ 32,
              mem := store s2.mem d i }]
        else [s, s1, s2, { s2 with mem := store s2.mem d i }]
      else [s, s1, s2, { s2 with mem := store s2.mem d i }]

/-- The states `mem_write_word` passes through, statement by statement. -/
def mem_write_word_trace (s : State) (d i : Nat) : List State :=
  if (d ≥ 0xA000 ∧ d ≤ 0xBFFF) ∨ (d + 1 ≥ 0xA000 ∧ d + 1 ≤ 0xBFFF) then
    [s,
      { s with sram_dirty := 1 },
      { s with sram_dirty := 1, sram_seq := (s.sram_seq + 1) % 2 ^ 32 },
      { s with
        sram_dirty := 1, sram_seq := (s.sram_seq + 1) % 2 ^ 32,
        mem := store s.mem d (i &&& 0xFF) },
      { s with
        sram_dirty := 1, sram_seq := (s.sram_seq + 1) % 2 ^ 32,
        mem := store (store s.mem d (i &&& 0xFF)) (d + 1) ((i >>> 8) % 256) }]
  else
    [s,
      { s with mem := store s.mem d (i &&& 0xFF) },
      { s with mem := store (store s.mem d (i &&& 0xFF)) (d + 1) ((i >>> 8) % 256) }]

/-! ## Sample collaborators, used to instantiate the theorems -/

/-- A decoder that filters nothing and switches no bank. -/
def passDecoder : Nat → Nat → MbcResult :=
  fun _ _ => ⟨0, []⟩

/-- A decoder that filters every write and selects bank `i`. -/
def grabDecoder : Nat → Nat → MbcResult :=
  fun _ i => ⟨1, [i]⟩

/-- No button held. -/
def noButtons : Buttons :=
  ⟨0, 0, 0, 0, 0, 0, 0, 0⟩

/-- Collaborators at cycle `c`, with the given decoder for both families. -/
def sampleEnv (c : Nat) (dec : Nat → Nat → MbcResult) : Env :=
  { cycles := c
    MBC1_write_byte := dec
    MBC3_write_byte := dec
    timer_get_div := 0
    timer_get_counter := 0
    timer_get_modulo := 0
    timer_get_tac := 0
    interrupt_get_IF := 0
    lcd_get_stat := 0
    lcd_get_line := 0
    interrupt_get_mask := 0
    buttons := noButtons }

/-- A ROM whose byte at offset `k` is `k % 251`. -/
def sampleRom (m : Mapper) : Rom :=
  { bytes := fun k => k % 251
    mapper := m }

/-- The ROM of the scenario: bank 0 all zero, bank 1 filled with `0xAA`. -/
def scenarioRom : Rom :=
  { bytes := fun k => if 0x4000 ≤ k ∧ k < 0x8000 then 0xAA else 0
    mapper := Mapper.NROM }

/-! ## Frame lemmas for the bank switches performed by a mapper decoder -/

@[simp]
theorem foldl_switch_mem (l : List Nat) (s : State) :
    (l.foldl mem_bank_switch s).mem = s.mem := by
  induction l generalizing s with
  | nil => rfl
  | cons n l ih => simp [List.foldl, ih, mem_bank_switch]

@[simp]
theorem foldl_switch_rom0 (l : List Nat) (s : State) :
    (l.foldl mem_bank_switch s).rom0 = s.rom0 := by
  induction l generalizing s with
  | nil => rfl
  | cons n l ih => simp [List.foldl, ih, mem_bank_switch]

@[simp]
theorem foldl_switch_dirty (l : List Nat) (s : State) :
    (l.foldl mem_bank_switch s).sram_dirty = s.sram_dirty := by
  induction l generalizing s with
  | nil => rfl
  | cons n l ih => simp [List.foldl, ih, mem_bank_switch]

@[simp]
theorem foldl_switch_seq (l : List Nat) (s : State) :
    (l.foldl mem_bank_switch s).sram_seq = s.sram_seq := by
  induction l generalizing s with
  | nil => rfl
  | cons n l ih => simp [List.foldl, ih, mem_bank_switch]

@[simp]
theorem foldl_switch_dma (l : List Nat) (s : State) :
    (l.foldl mem_bank_switch s).DMA_pending = s.DMA_pending := by
  induction l generalizing s with
  | nil => rfl
  | cons n l ih => simp [List.foldl, ih, mem_bank_switch]

@[simp]
theorem after_decode_mem (rom : Rom) (env : Env) (s : State) (d i : Nat) :
    (after_decode rom env s d i).mem = s.mem := by
  simp [after_decode]

@[simp]
theorem after_decode_rom0 (rom : Rom) (env : Env) (s : State) (d i : Nat) :
    (after_decode rom env s d i).rom0 = s.rom0 := by
  simp [after_decode]

@[simp]
theorem after_decode_dirty (rom : Rom) (env : Env) (s : State) (d i : Nat) :
    (after_decode rom env s d i).sram_dirty = s.sram_dirty := by
  simp [after_decode]

@[simp]
theorem after_decode_seq (rom : Rom) (env : Env) (s : State) (d i : Nat) :
    (after_decode rom env s d i).sram_seq = s.sram_seq := by
  simp [after_decode]

@[simp]
theorem after_decode_dma (rom : Rom) (env : Env) (s : State) (d i : Nat) :
    (after_decode rom env s d i).DMA_pending = s.DMA_pending := by
  simp [after_decode]

/-! ## What a read can change -/

theorem joypad_read_state (env : Env) (s : State) :
    ∃ c, (joypad_read env s).2 = { s with calls := c } := by
  unfold joypad_read
  by_cases h1 : s.joypad_select_buttons = 0 <;> by_cases h2 : s.joypad_select_directions = 0 <;>
    simp only [h1, h2, State.call, if_true, if_false] <;> exact ⟨_, rfl⟩

theorem io_read_state (env : Env) (s : State) (i : Nat) :
    ∃ c, (io_read env s i).2 = { s with calls := c } := by
  unfold io_read
  repeat' split
  all_goals first
    | exact joypad_read_state env s
    | exact ⟨_, rfl⟩

theorem decode_high_state (env : Env) (s : State) (i : Nat) :
    ∃ c, (decode_high env s i).2 = { s with calls := c } := by
  unfold decode_high
  split_ifs
  · exact ⟨s.calls, rfl⟩
  · exact io_read_state env s i

theorem mem_get_byte_state (rom : Rom) (env : Env) (s : State) (i : Nat) :
    ∃ c p, (mem_get_byte rom env s i).2 = { s with calls := c, DMA_pending := p } := by
  unfold mem_get_byte
  split_ifs
  · exact ⟨s.calls, s.DMA_pending, rfl⟩
  · exact ⟨s.calls, s.DMA_pending, rfl⟩
  · obtain ⟨c, hc⟩ := decode_high_state env { s with DMA_pending := 0 } i
    exact ⟨c, 0, hc⟩
  · exact ⟨s.calls, s.DMA_pending, rfl⟩
  · obtain ⟨c, hc⟩ := decode_high_state env s i
    exact ⟨c, s.DMA_pending, hc⟩

theorem mem_get_word_state (rom : Rom) (env : Env) (s : State) (i : Nat) :
    ∃ c p, (mem_get_word rom env s i).2 = { s with calls := c, DMA_pending := p } := by
  unfold mem_get_word
  split_ifs
  · obtain ⟨c1, p1, h1⟩ := mem_get_byte_state rom env s i
    obtain ⟨c2, p2, h2⟩ :=
      mem_get_byte_state rom env (mem_get_byte rom env s i).2 ((i + 1) % 0x10000)
    refine ⟨c2, p2, ?_⟩
    show (mem_get_byte rom env (mem_get_byte rom env s i).2 ((i + 1) % 0x10000)).2 = _
    rw [h2, h1]
  · exact ⟨s.calls, s.DMA_pending, rfl⟩

/-! ## What a write can change -/

/-- Case analysis on the second `switch` of `mem_write_byte`: the joypad select
lines, the DMA trigger, a peripheral setter, or no case at all. -/
theorem io_write_cases (env : Env) (s : State) (d i : Nat) (P : State → Prop)
    (h1 : d = 0xFF00 →
      P { s with joypad_select_buttons := i &&& 0x20, joypad_select_directions := i &&& 0x10 })
    (h2 : ∀ c, 0xFF00 < d → d ≠ 0xFF46 → P (s.call c))
    (h3 : d = 0xFF46 →
      P { s with mem := memcpy s.mem 0xFE00 (i * 0x100) 0xA0, DMA_pending := cpu_get_cycles env })
    (h4 : d ≠ 0xFF00 → d ≠ 0xFF46 → P s) : P (io_write env s d i) := by
  unfold io_write
  by_cases c0 : d = 0xFF00
  · rw [if_pos c0]; exact h1 c0
  rw [if_neg c0]
  by_cases c1 : d = 0xFF04
  · rw [if_pos c1]; exact h2 _ (by omega) (by omega)
  rw [if_neg c1]
  by_cases c2 : d = 0xFF05
  · rw [if_pos c2]; exact h2 _ (by omega) (by omega)
  rw [if_neg c2]
  by_cases c3 : d = 0xFF06
  · rw [if_pos c3]; exact h2 _ (by omega) (by omega)
  rw [if_neg c3]
  by_cases c4 : d = 0xFF07
  · rw [if_pos c4]; exact h2 _ (by omega) (by omega)
  rw [if_neg c4]
  by_cases c5 : d = 0xFF0F
  · rw [if_pos c5]; exact h2 _ (by omega) (by omega)
  rw [if_neg c5]
  by_cases c6 : d = 0xFF40
  · rw [if_pos c6]; exact h2 _ (by omega) (by omega)
  rw [if_neg c6]
  by_cases c7 : d = 0xFF41
  · rw [if_pos c7]; exact h2 _ (by omega) (by omega)
  rw [if_neg c7]
  by_cases c8 : d = 0xFF42
  · rw [if_pos c8]; exact h2 _ (by omega) (by omega)
  rw [if_neg c8]
  by_cases c9 : d = 0xFF43
  · rw [if_pos c9]; exact h2 _ (by omega) (by omega)
  rw [if_neg c9]
  by_cases c10 : d = 0xFF45
  · rw [if_pos c10]; exact h2 _ (by omega) (by omega)
  rw [if_neg c10]
  by_cases c11 : d = 0xFF46
  · rw [if_pos c11]; exact h3 c11
  rw [if_neg c11]
  by_cases c12 : d = 0xFF47
  · rw [if_pos c12]; exact h2 _ (by omega) (by omega)
  rw [if_neg c12]
  by_cases c13 : d = 0xFF48
  · rw [if_pos c13]; exact h2 _ (by omega) (by omega)
  rw [if_neg c13]
  by_cases c14 : d = 0xFF49
  · rw [if_pos c14]; exact h2 _ (by omega) (by omega)
  rw [if_neg c14]
  by_cases c15 : d = 0xFF4A
  · rw [if_pos c15]; exact h2 _ (by omega) (by omega)
  rw [if_neg c15]
  by_cases c16 : d = 0xFF4B
  · rw [if_pos c16]; exact h2 _ (by omega) (by omega)
  rw [if_neg c16]
  by_cases c17 : d = 0xFFFF
  · rw [if_pos c17]; exact h2 _ (by omega) (by omega)
  rw [if_neg c17]
  exact h4 c0 c11

theorem io_write_of_lt (env : Env) (s : State) (d i : Nat) (h : d < 0xFF00) :
    io_write env s d i = s := by
  apply io_write_cases env s d i (fun t => t = s)
  · intro h0; omega
  · intro c h0; omega
  · intro h0; omega
  · intros; rfl

theorem io_write_dma (env : Env) (s : State) (i : Nat) :
    io_write env s 0xFF46 i =
      { s with mem := memcpy s.mem 0xFE00 (i * 0x100) 0xA0, DMA_pending := cpu_get_cycles env } := by
  apply io_write_cases env s 0xFF46 i (fun t => t = _)
  · intro h0; omega
  · intro c _ h0; exact absurd rfl h0
  · intro _; rfl
  · intro _ h0; exact absurd rfl h0

/-- The second `switch` never touches the ROM views, the bank bookkeeping or
the SRAM tracking, and writes the backing store only inside the OAM range. -/
theorem io_write_fields (env : Env) (s : State) (d i : Nat) :
    (io_write env s d i).sram_dirty = s.sram_dirty ∧
    (io_write env s d i).sram_seq = s.sram_seq ∧
    (io_write env s d i).rom0 = s.rom0 ∧
    (io_write env s d i).romx = s.romx ∧
    (io_write env s d i).romx_bank = s.romx_bank ∧
    (io_write env s d i).bank_switches = s.bank_switches ∧
    (∀ k, ¬ (0xFE00 ≤ k ∧ k < 0xFEA0) → (io_write env s d i).mem k = s.mem k) := by
  apply io_write_cases env s d i
    (fun t => t.sram_dirty = s.sram_dirty ∧ t.sram_seq = s.sram_seq ∧ t.rom0 = s.rom0 ∧
      t.romx = s.romx ∧ t.romx_bank = s.romx_bank ∧ t.bank_switches = s.bank_switches ∧
      (∀ k, ¬ (0xFE00 ≤ k ∧ k < 0xFEA0) → t.mem k = s.mem k))
  · intro _; exact ⟨rfl, rfl, rfl, rfl, rfl, rfl, fun _ _ => rfl⟩
  · intro c _ _; exact ⟨rfl, rfl, rfl, rfl, rfl, rfl, fun _ _ => rfl⟩
  · intro _
    refine ⟨rfl, rfl, rfl, rfl, rfl, rfl, fun k hk => ?_⟩
    show memcpy s.mem 0xFE00 (i * 0x100) 0xA0 k = s.mem k
    unfold memcpy
    rw [if_neg (by omega)]
  · intro _ _; exact ⟨rfl, rfl, rfl, rfl, rfl, rfl, fun _ _ => rfl⟩

theorem store_same (m : Nat → Nat) (k : Nat) : store m k (m k) = m := by
  funext j
  unfold store
  split_ifs with h
  · rw [h]
  · rfl

theorem store_eq (m : Nat → Nat) (k v : Nat) : store m k v k = v := by
  simp [store]

theorem store_ne (m : Nat → Nat) (k v j : Nat) (h : j ≠ k) : store m k v j = m j := by
  simp [store, h]

/-- A byte write into the external-RAM range, on either path: the decoder
runs, and the byte is committed with the bookkeeping exactly when it differs
from the stored one. -/
theorem mem_write_byte_sram (rom : Rom) (env : Env) (s : State) (d i : Nat)
    (hd : 0xA000 ≤ d) (hd2 : d < 0xC000) :
    mem_write_byte rom env s d i =
      if s.mem d ≠ i then
        { after_decode rom env s d i with
          sram_dirty := 1, sram_seq := (s.sram_seq + 1) % 2 ^ 32, mem := store s.mem d i }
      else after_decode rom env s d i := by
  have hr : d ≥ 0xA000 ∧ d ≤ 0xBFFF := ⟨hd, by omega⟩
  have hF : d ≠ 0xFFFF := by omega
  unfold mem_write_byte
  simp only [io_write_of_lt env _ d i (by omega), after_decode_mem, after_decode_seq, hr, hF,
    and_self, if_true, if_false]
  by_cases hf : (mapper_decode rom env d i).1.filtered ≠ 0
  · rw [if_pos hf]
  · rw [if_neg hf]
    by_cases hm : s.mem d ≠ i
    · rw [if_pos hm, if_pos hm]
    · rw [if_neg hm, if_neg hm]
      have hm2 : i = s.mem d := by
        by_contra h
        exact hm (fun h2 => h h2.symm)
      have hst : store (after_decode rom env s d i).mem d i = (after_decode rom env s d i).mem := by
        rw [hm2, after_decode_mem, store_same]
      rw [hst]

/-! ## The fixed bank -/

theorem mem_get_byte_rom0 (rom : Rom) (env : Env) (s : State) (i : Nat) :
    (mem_get_byte rom env s i).2.rom0 = s.rom0 := by
  obtain ⟨c, p, h⟩ := mem_get_byte_state rom env s i
  rw [h]

theorem mem_get_word_rom0 (rom : Rom) (env : Env) (s : State) (i : Nat) :
    (mem_get_word rom env s i).2.rom0 = s.rom0 := by
  obtain ⟨c, p, h⟩ := mem_get_word_state rom env s i
  rw [h]

theorem io_write_rom0 (env : Env) (s : State) (d i : Nat) :
    (io_write env s d i).rom0 = s.rom0 :=
  (io_write_fields env s d i).2.2.1

theorem mem_write_byte_rom0 (rom : Rom) (env : Env) (s : State) (d i : Nat) :
    (mem_write_byte rom env s d i).rom0 = s.rom0 := by
  unfold mem_write_byte
  simp only []
  split_ifs <;> simp [io_write_rom0]

theorem mem_write_word_rom0 (s : State) (d i : Nat) :
    (mem_write_word s d i).rom0 = s.rom0 := by
  unfold mem_write_word
  simp only []
  split_ifs <;> rfl

theorem run_rom0 (rom : Rom) (s : State) (op : Op) :
    (op.run rom s).rom0 = s.rom0 := by
  cases op with
  | get_byte env i => exact mem_get_byte_rom0 rom env s i
  | get_word env i => exact mem_get_word_rom0 rom env s i
  | write_byte env d i => exact mem_write_byte_rom0 rom env s d i
  | write_word d i => exact mem_write_word_rom0 s d i
  | bank_switch n => rfl
  | sram_clear_dirty => rfl

/-- After initialisation the fixed-bank view always starts at offset 0 of the
ROM image. -/
theorem reachable_rom0 (rom : Rom) (s : State) (h : Reachable rom s) : s.rom0 = 0 := by
  induction h with
  | init s => rfl
  | step s op _ ih => rw [run_rom0, ih]

/-- C1: in every state reached after initialisation, whatever the selected
bank and the DMA state, `read_byte(a)` for `a < 0x4000` returns byte `a` of the
ROM image. -/
theorem read_byte_fixed_bank (rom : Rom) (env : Env) (s : State) (a : Nat)
    (hs : Reachable rom s) (ha : a < 0x4000) :
    (mem_get_byte rom env s a).1 = rom.bytes a := by
  have h0 : s.rom0 = 0 := reachable_rom0 rom s hs
  unfold mem_get_byte
  rw [if_pos ha, h0, Nat.zero_add]

theorem read_byte_fixed_bank_witness :
    (mem_get_byte (sampleRom Mapper.MBC1) (sampleEnv 7 grabDecoder)
      ((Op.write_byte (sampleEnv 3 grabDecoder) 0xFF46 0xC0).run (sampleRom Mapper.MBC1)
        ((Op.bank_switch 5).run (sampleRom Mapper.MBC1) (gameboy_mem_init boot))) 0x150).1
      = 85 :=
  read_byte_fixed_bank (sampleRom Mapper.MBC1) (sampleEnv 7 grabDecoder) _ 0x150
    (Reachable.step _ _ (Reachable.step _ _ (Reachable.init boot))) (by decide)

/-- C2: after `switch_bank(n)`, `read_byte(a)` for `a` in `[0x4000,0x8000)`
returns the ROM image byte at offset `n*0x4000 + (a - 0x4000)`, whatever the
DMA state.  The code computes the offset `n*0x4000` in 32-bit unsigned
arithmetic; the statement covers every bank whose offset is representable
there. -/
theorem read_byte_switched_bank (rom : Rom) (env : Env) (s : State) (n a : Nat)
    (hn : n * 0x4000 < 2 ^ 32) (ha : 0x4000 ≤ a) (ha2 : a < 0x8000) :
    (mem_get_byte rom env (mem_bank_switch s n) a).1
      = rom.bytes (n * 0x4000 + (a - 0x4000)) := by
  have h1 : ¬ a < 0x4000 := by omega
  have hn2 : n * 16384 % 4294967296 = n * 16384 := Nat.mod_eq_of_lt hn
  simp [mem_get_byte, h1, ha2, mem_bank_switch, hn2]

theorem read_byte_switched_bank_witness :
    (mem_get_byte scenarioRom (sampleEnv 0 passDecoder)
      (mem_bank_switch (gameboy_mem_init boot) 1) 0x4000).1 = 0xAA :=
  read_byte_switched_bank scenarioRom (sampleEnv 0 passDecoder) (gameboy_mem_init boot) 1 0x4000
    (by decide) (by decide) (by decide)

/-! ## Bytes and words -/

theorem byte_join (lo hi : Nat) (hlo : lo < 256) : lo ||| (hi <<< 8) = lo + 256 * hi := by
  have h := Nat.mul_add_lt_is_or (show lo < 2 ^ 8 from hlo) hi
  rw [Nat.shiftLeft_eq, Nat.or_comm, Nat.mul_comm hi (2 ^ 8), ← h]
  omega

theorem word_low (w : Nat) : w &&& 0xFF = w % 256 :=
  Nat.and_pow_two_sub_one_eq_mod w 8

theorem word_high (w : Nat) (hw : w < 0x10000) : (w >>> 8) % 256 = w / 256 := by
  rw [Nat.shiftRight_eq_div_pow]
  omega

theorem word_join_split (w : Nat) (hw : w < 0x10000) :
    ((w &&& 0xFF) ||| (((w >>> 8) % 256) <<< 8)) % 0x10000 = w := by
  rw [word_low, word_high w hw, byte_join _ _ (Nat.mod_lt _ (by decide))]
  omega

/-! ## Initial backing store -/

theorem foldl_store_other (l : List (Nat × Nat)) (m : Nat → Nat) (k : Nat)
    (h : ∀ p ∈ l, p.1 ≠ k) :
    (l.foldl (fun m kv => store m kv.1 kv.2) m) k = m k := by
  induction l generalizing m with
  | nil => rfl
  | cons p l ih =>
    rw [List.foldl, ih _ (fun q hq => h q (List.mem_cons_of_mem _ hq))]
    exact store_ne m p.1 p.2 k (fun hk => h p (List.mem_cons_self _ _) hk.symm)

/-- Below the register block the freshly initialised backing store is zero. -/
theorem init_mem_low (s : State) (k : Nat) (hk : k < 0xFF10) :
    (gameboy_mem_init s).mem k = 0 := by
  show (power_up_defaults.foldl (fun m kv => store m kv.1 kv.2) (fun _ => 0)) k = 0
  rw [foldl_store_other]
  intro p hp
  simp only [power_up_defaults, List.mem_cons, List.mem_singleton, List.not_mem_nil,
    or_false] at hp
  rcases hp with h | h | h | h | h | h | h | h | h | h | h | h | h | h | h | h | h | h | h <;>
    (subst h; show _ ≠ k; omega)

/-! ## Round trips -/

/-- An unfiltered byte write below the register block is a plain store; it
leaves the DMA state alone. -/
theorem mem_write_byte_plain (rom : Rom) (env : Env) (s : State) (d i : Nat)
    (hf : (mapper_decode rom env d i).1.filtered = 0) (hd : d < 0xFF00) :
    (mem_write_byte rom env s d i).mem = store s.mem d i ∧
    (mem_write_byte rom env s d i).DMA_pending = s.DMA_pending := by
  have hF : d ≠ 0xFFFF := by omega
  unfold mem_write_byte
  simp only [io_write_of_lt env _ d i hd, hf, hF, ne_eq, not_true_eq_false, if_false]
  split_ifs <;> simp

theorem nrom_unfiltered (rom : Rom) (env : Env) (d i : Nat) (hm : rom.mapper = Mapper.NROM)
    (hd : 0x8000 ≤ d) : (mapper_decode rom env d i).1.filtered = 0 := by
  have h : ¬ d < 0x8000 := by omega
  simp [mapper_decode, hm, h]

/-- With no DMA in flight a read in `[0x8000,0xFF00)` is a plain load. -/
theorem mem_get_byte_plain (rom : Rom) (env : Env) (s : State) (a : Nat)
    (ha : 0x8000 ≤ a) (ha2 : a < 0xFF00) (hdma : s.DMA_pending = 0) :
    mem_get_byte rom env s a = (s.mem a, s) := by
  have h1 : ¬ a < 0x4000 := by omega
  have h2 : ¬ a < 0x8000 := by omega
  simp [mem_get_byte, decode_high, h1, h2, ha2, hdma]

/-- C3: for an address in `[0x8000,0xFF00)` with no DMA in flight, on a
no-mapper cartridge or whenever the decoder does not filter the write,
`read_byte` after `write_byte` returns the byte written, and `read_word` after
`write_word` returns the 16-bit word written. -/
theorem write_read_roundtrip (rom : Rom) (envW envR : Env) (s : State) (a v w : Nat)
    (ha : 0x8000 ≤ a) (ha2 : a < 0xFF00) (hdma : s.DMA_pending = 0)
    (hf : rom.mapper = Mapper.NROM ∨ (mapper_decode rom envW a v).1.filtered = 0)
    (hw : w < 0x10000) :
    (mem_get_byte rom envR (mem_write_byte rom envW s a v) a).1 = v ∧
    (mem_get_word rom envR (mem_write_word s a w) a).1 = w := by
  have hf0 : (mapper_decode rom envW a v).1.filtered = 0 := by
    rcases hf with h | h
    · exact nrom_unfiltered rom envW a v h ha
    · exact h
  obtain ⟨hmem, hd⟩ := mem_write_byte_plain rom envW s a v hf0 ha2
  constructor
  · rw [mem_get_byte_plain rom envR _ a ha ha2 (by rw [hd, hdma]), hmem]
    exact store_eq s.mem a v
  · have h2 : ¬ a < 0x8000 := by omega
    have h3 : a ≠ a + 1 := by omega
    simp only [mem_get_word, h2, if_false, mem_write_word, store, h3, if_true]
    exact word_join_split w hw

theorem write_read_roundtrip_witness :
    (mem_get_byte (sampleRom Mapper.NROM) (sampleEnv 9 passDecoder)
      (mem_write_byte (sampleRom Mapper.NROM) (sampleEnv 4 passDecoder)
        (gameboy_mem_init boot) 0xC123 0x5A) 0xC123).1 = 0x5A ∧
    (mem_get_word (sampleRom Mapper.NROM) (sampleEnv 9 passDecoder)
      (mem_write_word (gameboy_mem_init boot) 0xC123 0xBEEF) 0xC123).1 = 0xBEEF :=
  write_read_roundtrip (sampleRom Mapper.NROM) (sampleEnv 4 passDecoder)
    (sampleEnv 9 passDecoder) (gameboy_mem_init boot) 0xC123 0x5A 0xBEEF
    (by decide) (by decide) rfl (Or.inl rfl) (by decide)

/-! ## External-RAM bookkeeping of byte writes -/

/-- C4: a byte write into `[0xA000,0xC000)`, filtered or not.  If the stored
byte differs from `v`, the 32-bit sequence counter is incremented by one, the
dirty flag is set and `v` is stored at `d` (no other byte changes); if the
stored byte already equals `v`, the counter, the flag and the backing store
are unchanged.  From a fresh initialisation, writing `0x12` to `0xB000` gives
`read_byte(0xB000) = 0x12`, dirty set and sequence `1`, and repeating the write
keeps sequence `1` and dirty set. -/
theorem sram_write_byte_bookkeeping (rom : Rom) (env : Env) (s : State) (d v : Nat)
    (hd : 0xA000 ≤ d) (hd2 : d < 0xC000) :
    (s.mem d ≠ v →
      (mem_write_byte rom env s d v).sram_seq = (s.sram_seq + 1) % 2 ^ 32 ∧
      (mem_write_byte rom env s d v).sram_dirty = 1 ∧
      (mem_write_byte rom env s d v).mem d = v ∧
      ∀ k, k ≠ d → (mem_write_byte rom env s d v).mem k = s.mem k) ∧
    (s.mem d = v →
      (mem_write_byte rom env s d v).sram_seq = s.sram_seq ∧
      (mem_write_byte rom env s d v).sram_dirty = s.sram_dirty ∧
      (mem_write_byte rom env s d v).mem = s.mem) ∧
    (∀ (rom1 : Rom) (e1 e2 e3 : Env),
      (mem_get_byte rom1 e2
        (mem_write_byte rom1 e1 (gameboy_mem_init boot) 0xB000 0x12) 0xB000).1 = 0x12 ∧
      (mem_write_byte rom1 e1 (gameboy_mem_init boot) 0xB000 0x12).sram_dirty = 1 ∧
      (mem_write_byte rom1 e1 (gameboy_mem_init boot) 0xB000 0x12).sram_seq = 1 ∧
      (mem_write_byte rom1 e3
        (mem_write_byte rom1 e1 (gameboy_mem_init boot) 0xB000 0x12) 0xB000 0x12).sram_seq = 1 ∧
      (mem_write_byte rom1 e3
        (mem_write_byte rom1 e1 (gameboy_mem_init boot) 0xB000 0x12) 0xB000 0x12).sram_dirty
          = 1) := by
  refine ⟨fun hne => ?_, fun heq => ?_, fun rom1 e1 e2 e3 => ?_⟩
  · rw [mem_write_byte_sram rom env s d v hd hd2, if_pos hne]
    exact ⟨rfl, rfl, store_eq s.mem d v, fun k hk => store_ne s.mem d v k hk⟩
  · rw [mem_write_byte_sram rom env s d v hd hd2, if_neg (fun h => h heq)]
    exact ⟨after_decode_seq rom env s d v, after_decode_dirty rom env s d v,
      after_decode_mem rom env s d v⟩
  · have h0 : (gameboy_mem_init boot).mem 0xB000 ≠ 0x12 := by
      rw [init_mem_low boot 0xB000 (by decide)]
      decide
    have h1 : mem_write_byte rom1 e1 (gameboy_mem_init boot) 0xB000 0x12 =
        { after_decode rom1 e1 (gameboy_mem_init boot) 0xB000 0x12 with
          sram_dirty := 1, sram_seq := ((gameboy_mem_init boot).sram_seq + 1) % 2 ^ 32,
          mem := store (gameboy_mem_init boot).mem 0xB000 0x12 } := by
      rw [mem_write_byte_sram rom1 e1 _ 0xB000 0x12 (by decide) (by decide), if_pos h0]
    have h2 : (mem_write_byte rom1 e1 (gameboy_mem_init boot) 0xB000 0x12).mem 0xB000 = 0x12 := by
      rw [h1]
      exact store_eq (gameboy_mem_init boot).mem 0xB000 0x12
    have h3 : (mem_write_byte rom1 e1 (gameboy_mem_init boot) 0xB000 0x12).DMA_pending = 0 := by
      rw [h1]
      exact after_decode_dma rom1 e1 (gameboy_mem_init boot) 0xB000 0x12
    refine ⟨?_, ?_, ?_, ?_, ?_⟩
    · rw [mem_get_byte_plain rom1 e2 _ 0xB000 (by decide) (by decide) h3]
      exact h2
    · rw [h1]
    · rw [h1]
      rfl
    · rw [mem_write_byte_sram rom1 e3 _ 0xB000 0x12 (by decide) (by decide),
        if_neg (fun h => h h2), after_decode_seq, h1]
      rfl
    · rw [mem_write_byte_sram rom1 e3 _ 0xB000 0x12 (by decide) (by decide),
        if_neg (fun h => h h2), after_decode_dirty, h1]

theorem sram_write_byte_bookkeeping_witness :
    (mem_write_byte (sampleRom Mapper.MBC3) (sampleEnv 0 grabDecoder)
        (gameboy_mem_init boot) 0xA000 7).sram_seq = 1 ∧
    (mem_write_byte (sampleRom Mapper.MBC3) (sampleEnv 0 grabDecoder)
        (gameboy_mem_init boot) 0xA000 7).sram_dirty = 1 ∧
    (mem_write_byte (sampleRom Mapper.MBC3) (sampleEnv 0 grabDecoder)
        (gameboy_mem_init boot) 0xA000 7).mem 0xA000 = 7 :=
  have h := (sram_write_byte_bookkeeping (sampleRom Mapper.MBC3) (sampleEnv 0 grabDecoder)
    (gameboy_mem_init boot) 0xA000 7 (by decide) (by decide)).1
    (by rw [init_mem_low boot 0xA000 (by decide)]; decide)
  ⟨h.1, h.2.1, h.2.2.1⟩

/-- A byte write outside `[0xA000,0xC000)` leaves the SRAM tracking and every
external-RAM byte as they were. -/
theorem mem_write_byte_outside (rom : Rom) (env : Env) (s : State) (d i : Nat)
    (hd : ¬ (0xA000 ≤ d ∧ d < 0xC000)) :
    (mem_write_byte rom env s d i).sram_seq = s.sram_seq ∧
    (mem_write_byte rom env s d i).sram_dirty = s.sram_dirty ∧
    ∀ k, 0xA000 ≤ k → k < 0xC000 → (mem_write_byte rom env s d i).mem k = s.mem k := by
  have hr : ¬ (d ≥ 0xA000 ∧ d ≤ 0xBFFF) := by omega
  obtain ⟨f2, f1, _, _, _, _, f7⟩ := io_write_fields env (after_decode rom env s d i) d i
  unfold mem_write_byte
  simp only [hr, if_false]
  by_cases hf : (mapper_decode rom env d i).1.filtered ≠ 0
  · rw [if_pos hf]
    exact ⟨after_decode_seq _ _ _ _ _, after_decode_dirty _ _ _ _ _,
      fun k _ _ => by rw [after_decode_mem]⟩
  · rw [if_neg hf]
    by_cases hF : d = 0xFFFF
    · rw [if_pos hF, f1, f2, after_decode_seq, after_decode_dirty]
      refine ⟨rfl, rfl, fun k hk hk2 => ?_⟩
      rw [f7 k (by omega), after_decode_mem]
    · rw [if_neg hF]
      refine ⟨?_, ?_, fun k hk hk2 => ?_⟩
      · show (io_write env (after_decode rom env s d i) d i).sram_seq = _
        rw [f1, after_decode_seq]
      · show (io_write env (after_decode rom env s d i) d i).sram_dirty = _
        rw [f2, after_decode_dirty]
      · show store (io_write env (after_decode rom env s d i) d i).mem d i k = _
        rw [store_ne _ _ _ _ (by omega), f7 k (by omega), after_decode_mem]

theorem seq_succ_ne (n : Nat) : (n + 1) % 2 ^ 32 ≠ n := by
  omega

/-- The external-RAM test of `mem_write_word` holds exactly for `d` in
`[0x9FFF,0xBFFF]`. -/
theorem word_touches_sram (d : Nat) :
    ((d ≥ 0xA000 ∧ d ≤ 0xBFFF) ∨ (d + 1 ≥ 0xA000 ∧ d + 1 ≤ 0xBFFF)) ↔
      (0x9FFF ≤ d ∧ d ≤ 0xBFFF) := by
  omega

theorem mem_write_word_seq (s : State) (d i : Nat) :
    (mem_write_word s d i).sram_seq =
      if 0x9FFF ≤ d ∧ d ≤ 0xBFFF then (s.sram_seq + 1) % 2 ^ 32 else s.sram_seq := by
  unfold mem_write_word
  simp only [word_touches_sram]
  split_ifs <;> rfl

theorem mem_write_word_dirty (s : State) (d i : Nat) :
    (mem_write_word s d i).sram_dirty =
      if 0x9FFF ≤ d ∧ d ≤ 0xBFFF then 1 else s.sram_dirty := by
  unfold mem_write_word
  simp only [word_touches_sram]
  split_ifs <;> rfl

/-- The two stores of `mem_write_word`. -/
theorem mem_write_word_mem (s : State) (d i : Nat) :
    (mem_write_word s d i).mem = store (store s.mem d (i &&& 0xFF)) (d + 1) ((i >>> 8) % 256) := by
  unfold mem_write_word
  split_ifs <;> rfl

/-! ## The sequence counter across writes -/

/-- C5, counterexample: a word write that rewrites the value already stored
at `0xA000` changes no byte of the backing store, yet the sequence counter
goes from 1 to 2. -/
theorem write_word_same_value_counted :
    (∀ k, (mem_write_word (mem_write_word (gameboy_mem_init boot) 0xA000 0x1234)
        0xA000 0x1234).mem k
      = (mem_write_word (gameboy_mem_init boot) 0xA000 0x1234).mem k) ∧
    (mem_write_word (gameboy_mem_init boot) 0xA000 0x1234).sram_seq = 1 ∧
    (mem_write_word (mem_write_word (gameboy_mem_init boot) 0xA000 0x1234)
      0xA000 0x1234).sram_seq = 2 := by
  refine ⟨fun k => ?_, rfl, rfl⟩
  rw [mem_write_word_mem, mem_write_word_mem]
  unfold store
  split_ifs <;> rfl

/-- C5, amended: `write_byte` increments the 32-bit sequence counter by one
when the address is in `[0xA000,0xC000)` and the write changes the byte stored
there, and leaves it unchanged otherwise; `write_word` increments it by one
when one of the two touched addresses is in `[0xA000,0xC000)`, that is when
`d` is in `[0x9FFF,0xBFFF]`, whether or not a stored byte changes, and leaves
it unchanged otherwise. -/
theorem seq_after_write (rom : Rom) (env : Env) (s : State) (d v : Nat) :
    (mem_write_byte rom env s d v).sram_seq =
      (if (0xA000 ≤ d ∧ d < 0xC000) ∧ (mem_write_byte rom env s d v).mem d ≠ s.mem d
        then (s.sram_seq + 1) % 2 ^ 32 else s.sram_seq) ∧
    (mem_write_word s d v).sram_seq =
      (if 0x9FFF ≤ d ∧ d ≤ 0xBFFF then (s.sram_seq + 1) % 2 ^ 32 else s.sram_seq) := by
  constructor
  · by_cases hd : 0xA000 ≤ d ∧ d < 0xC000
    · rw [mem_write_byte_sram rom env s d v hd.1 hd.2]
      by_cases hm : s.mem d ≠ v
      · have hc : store s.mem d v d ≠ s.mem d := by
          rw [store_eq]
          exact fun h => hm h.symm
        rw [if_pos hm, if_pos ⟨hd, hc⟩]
      · have hc : ¬ (after_decode rom env s d v).mem d ≠ s.mem d := by
          rw [after_decode_mem]
          exact fun h => h rfl
        rw [if_neg hm, if_neg (fun h => hc h.2), after_decode_seq]
    · rw [if_neg (fun h => hd h.1)]
      exact (mem_write_byte_outside rom env s d v hd).1
  · exact mem_write_word_seq s d v

/-! ## No unsignalled change of external RAM -/

/-- C6: for every operation other than initialisation and every index `k` of
`[0xA000,0xC000)`: if the byte at `k` differs between the state before and the
state after, the sequence counter differs too and the dirty flag is set;
equivalently, an unchanged sequence counter means the byte is unchanged. -/
theorem sram_change_signalled (rom : Rom) (s : State) (op : Op) (k : Nat)
    (hk : 0xA000 ≤ k) (hk2 : k < 0xC000) :
    ((op.run rom s).mem k ≠ s.mem k →
      (op.run rom s).sram_seq ≠ s.sram_seq ∧ (op.run rom s).sram_dirty = 1) ∧
    ((op.run rom s).sram_seq = s.sram_seq → (op.run rom s).mem k = s.mem k) := by
  have key : (op.run rom s).mem k ≠ s.mem k →
      (op.run rom s).sram_seq ≠ s.sram_seq ∧ (op.run rom s).sram_dirty = 1 := by
    intro hdiff
    cases op with
    | get_byte env i =>
      obtain ⟨c, p, h⟩ := mem_get_byte_state rom env s i
      exact absurd (by rw [Op.run, h]) hdiff
    | get_word env i =>
      obtain ⟨c, p, h⟩ := mem_get_word_state rom env s i
      exact absurd (by rw [Op.run, h]) hdiff
    | write_byte env d i =>
      change (mem_write_byte rom env s d i).mem k ≠ s.mem k at hdiff
      show (mem_write_byte rom env s d i).sram_seq ≠ s.sram_seq ∧
        (mem_write_byte rom env s d i).sram_dirty = 1
      by_cases hd : 0xA000 ≤ d ∧ d < 0xC000
      · rw [mem_write_byte_sram rom env s d i hd.1 hd.2] at hdiff ⊢
        by_cases hm : s.mem d ≠ i
        · rw [if_pos hm]
          exact ⟨seq_succ_ne s.sram_seq, rfl⟩
        · rw [if_neg hm, after_decode_mem] at hdiff
          exact absurd rfl hdiff
      · exact absurd ((mem_write_byte_outside rom env s d i hd).2.2 k hk hk2) hdiff
    | write_word d i =>
      change (mem_write_word s d i).mem k ≠ s.mem k at hdiff
      show (mem_write_word s d i).sram_seq ≠ s.sram_seq ∧ (mem_write_word s d i).sram_dirty = 1
      by_cases hd : 0x9FFF ≤ d ∧ d ≤ 0xBFFF
      · rw [mem_write_word_seq, mem_write_word_dirty, if_pos hd, if_pos hd]
        exact ⟨seq_succ_ne s.sram_seq, rfl⟩
      · rw [mem_write_word_mem, store_ne _ _ _ _ (by omega), store_ne _ _ _ _ (by omega)] at hdiff
        exact absurd rfl hdiff
    | bank_switch n => exact absurd rfl hdiff
    | sram_clear_dirty => exact absurd rfl hdiff
  refine ⟨key, fun hseq => ?_⟩
  by_contra hdiff
  exact (key hdiff).1 hseq

theorem sram_change_signalled_witness :
    (mem_write_word (gameboy_mem_init boot) 0x9FFF 0x1234).sram_seq
        ≠ (gameboy_mem_init boot).sram_seq ∧
    (mem_write_word (gameboy_mem_init boot) 0x9FFF 0x1234).sram_dirty = 1 :=
  (sram_change_signalled (sampleRom Mapper.NROM) (gameboy_mem_init boot)
    (Op.write_word 0x9FFF 0x1234) 0xA000 (by decide) (by decide)).1 (by decide)

/-! ## No-mapper write against filtered mapper write -/

/-- C7: for an address in `[0xA000,0xC000)`, the byte write on a no-mapper
cartridge and the byte write on a cartridge whose decoder reports the write as
filtered give the same backing store, the same dirty flag and the same
sequence counter. -/
theorem sram_write_nrom_eq_filtered (romN romM : Rom) (envN envM : Env) (s : State)
    (d v : Nat) (hd : 0xA000 ≤ d) (hd2 : d < 0xC000)
    (hN : romN.mapper = Mapper.NROM)
    (hM : (mapper_decode romM envM d v).1.filtered ≠ 0) :
    (mem_write_byte romN envN s d v).mem = (mem_write_byte romM envM s d v).mem ∧
    (mem_write_byte romN envN s d v).sram_dirty = (mem_write_byte romM envM s d v).sram_dirty ∧
    (mem_write_byte romN envN s d v).sram_seq = (mem_write_byte romM envM s d v).sram_seq := by
  have hNf : (mapper_decode romN envN d v).1.filtered = 0 :=
    nrom_unfiltered romN envN d v hN (by omega)
  have hr : d ≥ 0xA000 ∧ d ≤ 0xBFFF := ⟨hd, by omega⟩
  have hF : d ≠ 0xFFFF := by omega
  have hleft : mem_write_byte romN envN s d v =
      { (if s.mem d ≠ v then
          { after_decode romN envN s d v with
            sram_dirty := 1, sram_seq := (s.sram_seq + 1) % 2 ^ 32 }
        else after_decode romN envN s d v) with mem := store s.mem d v } := by
    unfold mem_write_byte
    simp only [hNf, ne_eq, not_true_eq_false, if_false, io_write_of_lt envN _ d v (by omega), hF,
      hr, and_self, if_true, after_decode_mem, after_decode_seq]
    split_ifs <;> simp
  have hright : mem_write_byte romM envM s d v =
      if s.mem d ≠ v then
        { after_decode romM envM s d v with
          sram_dirty := 1, sram_seq := (s.sram_seq + 1) % 2 ^ 32, mem := store s.mem d v }
      else after_decode romM envM s d v := by
    unfold mem_write_byte
    simp only [if_pos hM, hr, and_self, if_true, after_decode_mem, after_decode_seq]
  rw [hleft, hright]
  by_cases hm : s.mem d ≠ v
  · rw [if_pos hm, if_pos hm]
    exact ⟨rfl, rfl, rfl⟩
  · rw [if_neg hm, if_neg hm]
    have hv : v = s.mem d := by
      by_contra h
      exact hm (fun h2 => h h2.symm)
    refine ⟨?_, ?_, ?_⟩
    · show store s.mem d v = (after_decode romM envM s d v).mem
      rw [after_decode_mem, hv, store_same]
    · show (after_decode romN envN s d v).sram_dirty = (after_decode romM envM s d v).sram_dirty
      rw [after_decode_dirty, after_decode_dirty]
    · show (after_decode romN envN s d v).sram_seq = (after_decode romM envM s d v).sram_seq
      rw [after_decode_seq, after_decode_seq]

theorem sram_write_nrom_eq_filtered_witness :
    (mem_write_byte (sampleRom Mapper.NROM) (sampleEnv 0 passDecoder)
        (gameboy_mem_init boot) 0xA000 0x42).mem
      = (mem_write_byte (sampleRom Mapper.MBC1) (sampleEnv 0 grabDecoder)
        (gameboy_mem_init boot) 0xA000 0x42).mem ∧
    (mem_write_byte (sampleRom Mapper.NROM) (sampleEnv 0 passDecoder)
        (gameboy_mem_init boot) 0xA000 0x42).sram_dirty
      = (mem_write_byte (sampleRom Mapper.MBC1) (sampleEnv 0 grabDecoder)
        (gameboy_mem_init boot) 0xA000 0x42).sram_dirty ∧
    (mem_write_byte (sampleRom Mapper.NROM) (sampleEnv 0 passDecoder)
        (gameboy_mem_init boot) 0xA000 0x42).sram_seq
      = (mem_write_byte (sampleRom Mapper.MBC1) (sampleEnv 0 grabDecoder)
        (gameboy_mem_init boot) 0xA000 0x42).sram_seq :=
  sram_write_nrom_eq_filtered (sampleRom Mapper.NROM) (sampleRom Mapper.MBC1)
    (sampleEnv 0 passDecoder) (sampleEnv 0 grabDecoder) (gameboy_mem_init boot) 0xA000 0x42
    (by decide) (by decide) rfl (by decide)

/-! ## Word writes -/

/-- C8: for `d ≤ 0xFFFE` and a 16-bit `w`, `write_word(d, w)` stores `w mod 256`
at index `d` and `w div 256` at index `d+1`, both inside the backing store, and
changes no other byte; it calls neither a mapper decoder nor a peripheral
setter, and the bank index, the bank view, the bank-switch counter, the DMA
state and the joypad select lines are unchanged; the dirty flag is set and the
32-bit sequence counter incremented by one exactly when `d` is in
`[0x9FFF,0xBFFF]`, and both are unchanged otherwise.  The function reads
neither the mapper family nor any collaborator. -/
theorem write_word_frame (s : State) (d w : Nat) (hd : d ≤ 0xFFFE) (hw : w < 0x10000) :
    (d + 1 < 0x10000 ∧
      (mem_write_word s d w).mem d = w % 256 ∧
      (mem_write_word s d w).mem (d + 1) = w / 256 ∧
      ∀ k, k ≠ d → k ≠ d + 1 → (mem_write_word s d w).mem k = s.mem k) ∧
    ((mem_write_word s d w).calls = s.calls ∧
      (mem_write_word s d w).romx_bank = s.romx_bank ∧
      (mem_write_word s d w).romx = s.romx ∧
      (mem_write_word s d w).rom0 = s.rom0 ∧
      (mem_write_word s d w).bank_switches = s.bank_switches ∧
      (mem_write_word s d w).DMA_pending = s.DMA_pending ∧
      (mem_write_word s d w).joypad_select_buttons = s.joypad_select_buttons ∧
      (mem_write_word s d w).joypad_select_directions = s.joypad_select_directions) ∧
    ((0x9FFF ≤ d ∧ d ≤ 0xBFFF) →
      (mem_write_word s d w).sram_dirty = 1 ∧
      (mem_write_word s d w).sram_seq = (s.sram_seq + 1) % 2 ^ 32) ∧
    (¬ (0x9FFF ≤ d ∧ d ≤ 0xBFFF) →
      (mem_write_word s d w).sram_dirty = s.sram_dirty ∧
      (mem_write_word s d w).sram_seq = s.sram_seq) := by
  refine ⟨⟨by omega, ?_, ?_, fun k h1 h2 => ?_⟩, ?_, fun h => ?_, fun h => ?_⟩
  · rw [mem_write_word_mem, store_ne _ _ _ _ (by omega), store_eq, word_low]
  · rw [mem_write_word_mem, store_eq, word_high w hw]
  · rw [mem_write_word_mem, store_ne _ _ _ _ h2, store_ne _ _ _ _ h1]
  · unfold mem_write_word
    split_ifs <;> exact ⟨rfl, rfl, rfl, rfl, rfl, rfl, rfl, rfl⟩
  · rw [mem_write_word_dirty, mem_write_word_seq, if_pos h, if_pos h]
    exact ⟨rfl, rfl⟩
  · rw [mem_write_word_dirty, mem_write_word_seq, if_neg h, if_neg h]
    exact ⟨rfl, rfl⟩

theorem write_word_frame_witness :
    (mem_write_word (gameboy_mem_init boot) 0xA0 0x0102).mem 0xA0 = 2 ∧
    (mem_write_word (gameboy_mem_init boot) 0xA0 0x0102).mem 0xA1 = 1 ∧
    (mem_write_word (gameboy_mem_init boot) 0xA0 0x0102).calls = [] ∧
    (mem_write_word (gameboy_mem_init boot) 0xA0 0x0102).romx_bank = 1 ∧
    (mem_write_word (gameboy_mem_init boot) 0xA0 0x0102).bank_switches = 0 ∧
    (mem_write_word (gameboy_mem_init boot) 0xA0 0x0102).sram_seq = 0 :=
  have h := write_word_frame (gameboy_mem_init boot) 0xA0 0x0102 (by decide) (by decide)
  ⟨h.1.2.1, h.1.2.2.1, h.2.1.1, h.2.1.2.1, h.2.1.2.2.2.2.1, (h.2.2.2 (by decide)).2⟩

/-! ## Word reads -/

theorem joypad_read_lt (env : Env) (s : State) : (joypad_read env s).1 < 256 :=
  Nat.mod_lt _ (by decide)

theorem io_read_lt (env : Env) (s : State) (i : Nat) (hmem : ∀ k, s.mem k < 256) :
    (io_read env s i).1 < 256 := by
  unfold io_read
  repeat' split
  all_goals first
    | exact joypad_read_lt env s
    | exact Nat.mod_lt _ (by decide)
    | exact hmem i
    | exact (by decide : (0xFF : Nat) < 256)

theorem decode_high_lt (env : Env) (s : State) (i : Nat) (hmem : ∀ k, s.mem k < 256) :
    (decode_high env s i).1 < 256 := by
  unfold decode_high
  split_ifs
  · exact hmem i
  · exact io_read_lt env s i hmem

/-- Every read returns a byte, when the ROM image and the backing store hold
bytes. -/
theorem mem_get_byte_lt (rom : Rom) (env : Env) (s : State) (i : Nat)
    (hrom : ∀ k, rom.bytes k < 256) (hmem : ∀ k, s.mem k < 256) :
    (mem_get_byte rom env s i).1 < 256 := by
  unfold mem_get_byte
  split_ifs
  · exact hrom _
  · exact hrom _
  · exact decode_high_lt env _ i hmem
  · exact hmem _
  · exact decode_high_lt env s i hmem

theorem mem_get_byte_rom_state (rom : Rom) (env : Env) (s : State) (a : Nat) (ha : a < 0x8000) :
    (mem_get_byte rom env s a).2 = s := by
  unfold mem_get_byte
  split_ifs
  · rfl
  · rfl

theorem foldl_store_lt (l : List (Nat × Nat)) (m : Nat → Nat)
    (hl : ∀ p ∈ l, p.2 < 256) (hm : ∀ k, m k < 256) (k : Nat) :
    (l.foldl (fun m kv => store m kv.1 kv.2) m) k < 256 := by
  induction l generalizing m with
  | nil => exact hm k
  | cons p l ih =>
    rw [List.foldl]
    apply ih _ (fun q hq => hl q (List.mem_cons_of_mem _ hq))
    intro j
    unfold store
    split_ifs
    · exact hl p (List.mem_cons_self _ _)
    · exact hm j

/-- The freshly initialised backing store holds bytes. -/
theorem init_mem_lt (s : State) (k : Nat) : (gameboy_mem_init s).mem k < 256 := by
  show (power_up_defaults.foldl (fun m kv => store m kv.1 kv.2) (fun _ => 0)) k < 256
  apply foldl_store_lt
  · decide
  · intro _
    decide

/-- A word write keeps the backing store a store of bytes. -/
theorem mem_write_word_lt (s : State) (d w : Nat) (h : ∀ k, s.mem k < 256) (k : Nat) :
    (mem_write_word s d w).mem k < 256 := by
  rw [mem_write_word_mem]
  unfold store
  split_ifs
  · exact Nat.mod_lt _ (by decide)
  · rw [word_low]
    exact Nat.mod_lt _ (by decide)
  · exact h k

/-- C9: `read_word` is little-endian, for a ROM image and a backing store that
hold bytes.  Below `0x8000` it is `read_byte(a) + 256 * read_byte(a+1)`, the low
byte read first and each through `mem_get_byte` (the first read leaves the
state as it was); `read_word(0x3FFF)` takes its low byte from the fixed bank at
offset `0x3FFF` and its high byte from the switchable bank at offset 0, and
`read_word(0x7FFF)` takes its high byte from `read_byte(0x8000)`.  For
`0x8000 ≤ a ≤ 0xFFFE` it is `mem[a] + 256 * mem[a+1]` whatever the DMA state and
the collaborators, and the state, its call record included, is unchanged. -/
theorem read_word_little_endian (rom : Rom) (env : Env) (s : State)
    (hrom : ∀ k, rom.bytes k < 256) (hmem : ∀ k, s.mem k < 256) :
    (∀ a, a < 0x8000 →
      (mem_get_byte rom env s a).2 = s ∧
      mem_get_word rom env s a =
        ((mem_get_byte rom env s a).1
            + 256 * (mem_get_byte rom env (mem_get_byte rom env s a).2 (a + 1)).1,
          (mem_get_byte rom env (mem_get_byte rom env s a).2 (a + 1)).2)) ∧
    (mem_get_word rom env s 0x3FFF).1
      = rom.bytes (s.rom0 + 0x3FFF) + 256 * rom.bytes (s.romx + 0) ∧
    (mem_get_word rom env s 0x7FFF).1
      = rom.bytes (s.romx + 0x3FFF) + 256 * (mem_get_byte rom env s 0x8000).1 ∧
    (∀ a, 0x8000 ≤ a → a ≤ 0xFFFE →
      mem_get_word rom env s a = (s.mem a + 256 * s.mem (a + 1), s)) := by
  have low : ∀ a, a < 0x8000 →
      mem_get_word rom env s a =
        ((mem_get_byte rom env s a).1
            + 256 * (mem_get_byte rom env (mem_get_byte rom env s a).2 (a + 1)).1,
          (mem_get_byte rom env (mem_get_byte rom env s a).2 (a + 1)).2) := by
    intro a ha
    have h1 : (a + 1) % 0x10000 = a + 1 := by omega
    have hlo := mem_get_byte_lt rom env s a hrom hmem
    have hhi := mem_get_byte_lt rom env s (a + 1) hrom hmem
    unfold mem_get_word
    rw [if_pos ha]
    simp only [h1, mem_get_byte_rom_state rom env s a ha]
    rw [byte_join _ _ hlo]
    congr 1
    omega
  refine ⟨fun a ha => ⟨mem_get_byte_rom_state rom env s a ha, low a ha⟩, ?_, ?_, ?_⟩
  · rw [low 0x3FFF (by decide), mem_get_byte_rom_state rom env s 0x3FFF (by decide)]
    simp [mem_get_byte]
  · rw [low 0x7FFF (by decide), mem_get_byte_rom_state rom env s 0x7FFF (by decide)]
    simp [mem_get_byte]
  · intro a ha ha2
    have h1 : ¬ a < 0x8000 := by omega
    have hlo := hmem a
    have hhi := hmem (a + 1)
    unfold mem_get_word
    rw [if_neg h1, byte_join _ _ hlo]
    congr 1
    omega

theorem read_word_little_endian_witness :
    (mem_get_word (sampleRom Mapper.NROM) (sampleEnv 0 passDecoder)
      (mem_write_word (mem_write_word (gameboy_mem_init boot) 0xC000 0xBEEF) 0x8000 0x1234)
      0x3FFF).1 = 68 + 256 * 69 ∧
    (mem_get_word (sampleRom Mapper.NROM) (sampleEnv 0 passDecoder)
      (mem_write_word (mem_write_word (gameboy_mem_init boot) 0xC000 0xBEEF) 0x8000 0x1234)
      0x7FFF).1 = 137 + 256 * 0x34 ∧
    mem_get_word (sampleRom Mapper.NROM) (sampleEnv 0 passDecoder)
      (mem_write_word (mem_write_word (gameboy_mem_init boot) 0xC000 0xBEEF) 0x8000 0x1234)
      0xC000
      = (0xEF + 256 * 0xBE,
        mem_write_word (mem_write_word (gameboy_mem_init boot) 0xC000 0xBEEF) 0x8000 0x1234) :=
  have h := read_word_little_endian (sampleRom Mapper.NROM) (sampleEnv 0 passDecoder)
    (mem_write_word (mem_write_word (gameboy_mem_init boot) 0xC000 0xBEEF) 0x8000 0x1234)
    (fun k => Nat.lt_trans (Nat.mod_lt k (by decide)) (by decide))
    (mem_write_word_lt _ 0x8000 0x1234
      (mem_write_word_lt _ 0xC000 0xBEEF (init_mem_lt boot)))
  ⟨h.2.1, h.2.2.1, h.2.2.2 0xC000 (by decide) (by decide)⟩

/-! ## The DMA trigger -/

/-- An unfiltered byte write outside external RAM and other than `0xFFFF`: the
register `switch`, then the store. -/
theorem mem_write_byte_unfiltered (rom : Rom) (env : Env) (s : State) (d i : Nat)
    (hf : (mapper_decode rom env d i).1.filtered = 0) (hF : d ≠ 0xFFFF)
    (hd : ¬ (0xA000 ≤ d ∧ d < 0xC000)) :
    mem_write_byte rom env s d i =
      { io_write env (after_decode rom env s d i) d i with
        mem := store (io_write env (after_decode rom env s d i) d i).mem d i } := by
  have hr : ¬ (d ≥ 0xA000 ∧ d ≤ 0xBFFF) := by omega
  unfold mem_write_byte
  simp only [hf, ne_eq, not_true_eq_false, if_false, hr, hF]

/-- C10: an unfiltered `write_byte(0xFF46, S)` with `S` in `0..255` leaves
`mem[0xFE00 + k]` equal to the previous `mem[S*0x100 + k]` for every `k < 0xA0`,
stores `S` at `0xFF46`, changes no other byte, leaves the dirty flag and the
sequence counter unchanged, and records the CPU cycle count as the DMA
start. -/
theorem dma_trigger_copy (rom : Rom) (env : Env) (s : State) (S : Nat) (hS : S < 256)
    (hf : (mapper_decode rom env 0xFF46 S).1.filtered = 0) :
    (S * 0x100 + 0xA0 ≤ 0x10000) ∧
    (∀ k, k < 0xA0 → (mem_write_byte rom env s 0xFF46 S).mem (0xFE00 + k)
        = s.mem (S * 0x100 + k)) ∧
    (mem_write_byte rom env s 0xFF46 S).mem 0xFF46 = S ∧
    (∀ j, ¬ (0xFE00 ≤ j ∧ j < 0xFEA0) → j ≠ 0xFF46 →
      (mem_write_byte rom env s 0xFF46 S).mem j = s.mem j) ∧
    (mem_write_byte rom env s 0xFF46 S).sram_dirty = s.sram_dirty ∧
    (mem_write_byte rom env s 0xFF46 S).sram_seq = s.sram_seq ∧
    (mem_write_byte rom env s 0xFF46 S).DMA_pending = cpu_get_cycles env := by
  have hw : mem_write_byte rom env s 0xFF46 S =
      { after_decode rom env s 0xFF46 S with
        mem := store (memcpy s.mem 0xFE00 (S * 0x100) 0xA0) 0xFF46 S,
        DMA_pending := cpu_get_cycles env } := by
    rw [mem_write_byte_unfiltered rom env s 0xFF46 S hf (by decide) (by decide), io_write_dma,
      after_decode_mem]
  rw [hw]
  refine ⟨by omega, fun k hk => ?_, ?_, fun j hj hj2 => ?_, ?_, ?_, rfl⟩
  · show store (memcpy s.mem 0xFE00 (S * 0x100) 0xA0) 0xFF46 S (0xFE00 + k) = _
    rw [store_ne _ _ _ _ (by omega)]
    unfold memcpy
    have hidx : S * 0x100 + (0xFE00 + k - 0xFE00) = S * 0x100 + k := by omega
    rw [if_pos (by omega), hidx]
  · exact store_eq (memcpy s.mem 0xFE00 (S * 0x100) 0xA0) 0xFF46 S
  · show store (memcpy s.mem 0xFE00 (S * 0x100) 0xA0) 0xFF46 S j = _
    rw [store_ne _ _ _ _ hj2]
    unfold memcpy
    rw [if_neg (by omega)]
  · exact after_decode_dirty rom env s 0xFF46 S
  · exact after_decode_seq rom env s 0xFF46 S

theorem dma_trigger_copy_witness :
    (mem_write_byte (sampleRom Mapper.NROM) (sampleEnv 1234 passDecoder)
        (mem_write_word (gameboy_mem_init boot) 0xC010 0xBEEF) 0xFF46 0xC0).mem 0xFE10 = 0xEF ∧
    (mem_write_byte (sampleRom Mapper.NROM) (sampleEnv 1234 passDecoder)
        (mem_write_word (gameboy_mem_init boot) 0xC010 0xBEEF) 0xFF46 0xC0).mem 0xFF46 = 0xC0 ∧
    (mem_write_byte (sampleRom Mapper.NROM) (sampleEnv 1234 passDecoder)
        (mem_write_word (gameboy_mem_init boot) 0xC010 0xBEEF) 0xFF46 0xC0).DMA_pending
      = 1234 :=
  have h := dma_trigger_copy (sampleRom Mapper.NROM) (sampleEnv 1234 passDecoder)
    (mem_write_word (gameboy_mem_init boot) 0xC010 0xBEEF) 0xC0 (by decide) (by decide)
  ⟨h.2.1 0x10 (by decide), h.2.2.1, h.2.2.2.2.2.2⟩

/-! ## The DMA overlay on reads -/

theorem cpu_get_cycles_lt (env : Env) : cpu_get_cycles env < 2 ^ 32 :=
  Nat.mod_lt _ (by decide)

/-- While a DMA is in flight and fewer than 160 cycles have elapsed, a read in
`[0x8000,0xFF80)` returns the byte at the transfer head and changes nothing. -/
theorem mem_get_byte_overlay (rom : Rom) (env : Env) (s : State) (a : Nat)
    (h0 : s.DMA_pending ≠ 0) (ha : 0x8000 ≤ a) (ha2 : a < 0xFF80)
    (he : dma_elapsed env s < 160) :
    mem_get_byte rom env s a = (s.mem (0xFE00 + dma_elapsed env s), s) := by
  have h1 : ¬ a < 0x4000 := by omega
  have h2 : ¬ a < 0x8000 := by omega
  have h3 : ¬ dma_elapsed env s ≥ 160 := by omega
  unfold mem_get_byte
  rw [if_neg h1, if_neg h2, if_pos ⟨h0, ha2⟩, if_neg h3]

/-- Once 160 cycles have elapsed, a read in `[0x8000,0xFF80)` clears the DMA
state and decodes the address. -/
theorem mem_get_byte_expired (rom : Rom) (env : Env) (s : State) (a : Nat)
    (h0 : s.DMA_pending ≠ 0) (ha : 0x8000 ≤ a) (ha2 : a < 0xFF80)
    (he : 160 ≤ dma_elapsed env s) :
    mem_get_byte rom env s a = decode_high env { s with DMA_pending := 0 } a := by
  have h1 : ¬ a < 0x4000 := by omega
  have h2 : ¬ a < 0x8000 := by omega
  unfold mem_get_byte
  rw [if_neg h1, if_neg h2, if_pos ⟨h0, ha2⟩, if_pos he]

/-- With no DMA in flight a read at or above `0x8000` decodes the address. -/
theorem mem_get_byte_idle (rom : Rom) (env : Env) (s : State) (a : Nat)
    (h0 : s.DMA_pending = 0) (ha : 0x8000 ≤ a) :
    mem_get_byte rom env s a = decode_high env s a := by
  have h1 : ¬ a < 0x4000 := by omega
  have h2 : ¬ a < 0x8000 := by omega
  have h3 : ¬ (s.DMA_pending ≠ 0 ∧ a < 0xFF80) := fun h => h.1 h0
  unfold mem_get_byte
  rw [if_neg h1, if_neg h2, if_neg h3]

theorem decode_high_low (env : Env) (s : State) (a : Nat) (ha : a < 0xFF00) :
    decode_high env s a = (s.mem a, s) := by
  unfold decode_high
  rw [if_pos ha]

theorem decode_high_dma (env : Env) (s : State) (a : Nat) :
    (decode_high env s a).2.DMA_pending = s.DMA_pending := by
  obtain ⟨c, h⟩ := decode_high_state env s a
  rw [h]

theorem decode_high_mem (env : Env) (s : State) (a : Nat) :
    (decode_high env s a).2.mem = s.mem := by
  obtain ⟨c, h⟩ := decode_high_state env s a
  rw [h]

/-- The state after an unfiltered write to the DMA trigger. -/
theorem mem_write_byte_dma (rom : Rom) (env : Env) (s : State) (S : Nat)
    (hf : (mapper_decode rom env 0xFF46 S).1.filtered = 0) :
    mem_write_byte rom env s 0xFF46 S =
      { after_decode rom env s 0xFF46 S with
        mem := store (memcpy s.mem 0xFE00 (S * 0x100) 0xA0) 0xFF46 S,
        DMA_pending := cpu_get_cycles env } := by
  rw [mem_write_byte_unfiltered rom env s 0xFF46 S hf (by decide) (by decide), io_write_dma,
    after_decode_mem]

/-- After the copy and the store of the trigger value, OAM byte `k` is the old
byte `k` of the source page. -/
theorem dma_oam_byte (m : Nat → Nat) (S k : Nat) (hk : k < 0xA0) :
    store (memcpy m 0xFE00 (S * 0x100) 0xA0) 0xFF46 S (0xFE00 + k) = m (S * 0x100 + k) := by
  have hidx : S * 0x100 + (0xFE00 + k - 0xFE00) = S * 0x100 + k := by omega
  rw [store_ne _ _ _ _ (by omega)]
  unfold memcpy
  rw [if_pos (by omega), hidx]

theorem dma_elapsed_zero (env : Env) (s : State)
    (h : cpu_get_cycles env = s.DMA_pending) : dma_elapsed env s = 0 := by
  unfold dma_elapsed
  rw [h]
  omega

/-- When the cycle counter has not wrapped since the trigger, the elapsed count
is the plain difference. -/
theorem dma_elapsed_sub (env : Env) (s : State) (h1 : s.DMA_pending ≤ env.cycles)
    (h2 : env.cycles < 2 ^ 32) : dma_elapsed env s = env.cycles - s.DMA_pending := by
  unfold dma_elapsed cpu_get_cycles
  omega

theorem unfiltered_of (rom : Rom) (env : Env) (d i : Nat) (hd : 0x8000 ≤ d)
    (hf : rom.mapper = Mapper.NROM ∨ (mapper_decode rom env d i).1.filtered = 0) :
    (mapper_decode rom env d i).1.filtered = 0 := by
  rcases hf with h | h
  · exact nrom_unfiltered rom env d i h hd
  · exact h

/-- C11, counterexample: the page `0xC0` holds 1 at `0xC000` and 2 at
`0xC001`; the DMA is triggered at cycle 1000 and `0xFE01` is read with no
cycle elapsed.  The read returns 1, the byte for `k = 0`, not the byte 2 of
the source at `k = 1`. -/
theorem dma_read_immediate_not_source :
    (mem_get_byte (sampleRom Mapper.NROM) (sampleEnv 1000 passDecoder)
      (mem_write_byte (sampleRom Mapper.NROM) (sampleEnv 1000 passDecoder)
        (mem_write_word (gameboy_mem_init boot) 0xC000 0x0201) 0xFF46 0xC0) 0xFE01).1 = 1 ∧
    (mem_write_word (gameboy_mem_init boot) 0xC000 0x0201).mem (0xC0 * 0x100 + 1) = 2 := by
  decide

/-- C11, amended: let `S` be a source page in `0x80..0xFE`, so that for every
`k < 0xA0` the source address `S*0x100 + k` lies in `[0x8000,0xFF00)`, where the
byte of the address space is the backing-store byte (`read_byte` returns it
when no DMA is in flight).  After an unfiltered `write_byte(0xFF46, S)` at
cycle count `T`, a read of `0xFE00 + k` returns the byte the address space
held at `S*0x100 + k` before the write when `T = 0` (no DMA in flight) or when
at least 160 cycles have elapsed; while `T ≠ 0` and fewer than 160 cycles have
elapsed it returns the byte held at `S*0x100 + elapsed` whatever `k` is, so
with no cycle elapsed it returns the byte held at `S*0x100`. -/
theorem dma_read_after_trigger (rom : Rom) (envW envR : Env) (s : State) (S k : Nat)
    (hS1 : 0x80 ≤ S) (hS2 : S ≤ 0xFE) (hk : k < 0xA0)
    (hf : rom.mapper = Mapper.NROM ∨ (mapper_decode rom envW 0xFF46 S).1.filtered = 0) :
    (0x8000 ≤ S * 0x100 + k ∧ S * 0x100 + k < 0xFF00 ∧
      ∀ e, s.DMA_pending = 0 →
        mem_get_byte rom e s (S * 0x100 + k) = (s.mem (S * 0x100 + k), s)) ∧
    ((cpu_get_cycles envW = 0 ∨
        160 ≤ dma_elapsed envR (mem_write_byte rom envW s 0xFF46 S)) →
      (mem_get_byte rom envR (mem_write_byte rom envW s 0xFF46 S) (0xFE00 + k)).1
        = s.mem (S * 0x100 + k)) ∧
    (cpu_get_cycles envW ≠ 0 →
      dma_elapsed envR (mem_write_byte rom envW s 0xFF46 S) < 160 →
      (mem_get_byte rom envR (mem_write_byte rom envW s 0xFF46 S) (0xFE00 + k)).1
        = s.mem (S * 0x100 + dma_elapsed envR (mem_write_byte rom envW s 0xFF46 S))) ∧
    (cpu_get_cycles envW ≠ 0 → cpu_get_cycles envR = cpu_get_cycles envW →
      (mem_get_byte rom envR (mem_write_byte rom envW s 0xFF46 S) (0xFE00 + k)).1
        = s.mem (S * 0x100)) := by
  have hf0 := unfiltered_of rom envW 0xFF46 S (by decide) hf
  have hw := mem_write_byte_dma rom envW s S hf0
  have hdma : (mem_write_byte rom envW s 0xFF46 S).DMA_pending = cpu_get_cycles envW := by
    rw [hw]
  have hmem : ∀ j, j < 0xA0 →
      (mem_write_byte rom envW s 0xFF46 S).mem (0xFE00 + j) = s.mem (S * 0x100 + j) := by
    intro j hj
    rw [hw]
    exact dma_oam_byte s.mem S j hj
  have hover : cpu_get_cycles envW ≠ 0 →
      dma_elapsed envR (mem_write_byte rom envW s 0xFF46 S) < 160 →
      (mem_get_byte rom envR (mem_write_byte rom envW s 0xFF46 S) (0xFE00 + k)).1
        = s.mem (S * 0x100 + dma_elapsed envR (mem_write_byte rom envW s 0xFF46 S)) := by
    intro hT he
    rw [mem_get_byte_overlay rom envR _ (0xFE00 + k) (by rw [hdma]; exact hT) (by omega)
      (by omega) he]
    exact hmem _ he
  have hsrc : ∀ e, s.DMA_pending = 0 →
      mem_get_byte rom e s (S * 0x100 + k) = (s.mem (S * 0x100 + k), s) :=
    fun e h0 => mem_get_byte_plain rom e s (S * 0x100 + k) (by omega) (by omega) h0
  refine ⟨⟨by omega, by omega, hsrc⟩, fun h => ?_, hover, fun hT hsame => ?_⟩
  · by_cases hT : cpu_get_cycles envW = 0
    · rw [mem_get_byte_idle rom envR _ (0xFE00 + k) (by rw [hdma]; exact hT) (by omega),
        decode_high_low envR _ _ (by omega)]
      exact hmem k hk
    · have he : 160 ≤ dma_elapsed envR (mem_write_byte rom envW s 0xFF46 S) := by
        rcases h with h | h
        · exact absurd h hT
        · exact h
      rw [mem_get_byte_expired rom envR _ (0xFE00 + k) (by rw [hdma]; exact hT) (by omega)
        (by omega) he, decode_high_low envR _ _ (by omega)]
      exact hmem k hk
  · have hz : dma_elapsed envR (mem_write_byte rom envW s 0xFF46 S) = 0 :=
      dma_elapsed_zero envR _ (by rw [hdma]; exact hsame)
    have h := hover hT (by rw [hz]; decide)
    rw [hz, Nat.add_zero] at h
    exact h

theorem dma_read_after_trigger_witness :
    mem_get_byte (sampleRom Mapper.NROM) (sampleEnv 999 passDecoder)
        (mem_write_word (gameboy_mem_init boot) 0xC000 0x0201) (0xC0 * 0x100 + 1)
      = ((mem_write_word (gameboy_mem_init boot) 0xC000 0x0201).mem (0xC0 * 0x100 + 1),
          mem_write_word (gameboy_mem_init boot) 0xC000 0x0201) ∧
    (mem_get_byte (sampleRom Mapper.NROM) (sampleEnv 1160 passDecoder)
      (mem_write_byte (sampleRom Mapper.NROM) (sampleEnv 1000 passDecoder)
        (mem_write_word (gameboy_mem_init boot) 0xC000 0x0201) 0xFF46 0xC0) (0xFE00 + 1)).1
      = (mem_write_word (gameboy_mem_init boot) 0xC000 0x0201).mem (0xC0 * 0x100 + 1) :=
  have h := dma_read_after_trigger (sampleRom Mapper.NROM) (sampleEnv 1000 passDecoder)
    (sampleEnv 1160 passDecoder) (mem_write_word (gameboy_mem_init boot) 0xC000 0x0201)
    0xC0 1 (by decide) (by decide) (by decide) (Or.inl rfl)
  ⟨h.1.2.2 (sampleEnv 999 passDecoder) rfl, h.2.1 (Or.inr (by decide))⟩

/-! ## The DMA state across operations -/

theorem io_write_keeps_dma (env : Env) (s : State) (d i : Nat) (hd : d ≠ 0xFF46) :
    (io_write env s d i).DMA_pending = s.DMA_pending := by
  apply io_write_cases env s d i (fun t => t.DMA_pending = s.DMA_pending)
  · intro _; rfl
  · intro c _ _; rfl
  · intro h; exact absurd h hd
  · intro _ _; rfl

/-- Only a write to `0xFF46` assigns the DMA state. -/
theorem mem_write_byte_keeps_dma (rom : Rom) (env : Env) (s : State) (d i : Nat)
    (hd : d ≠ 0xFF46) : (mem_write_byte rom env s d i).DMA_pending = s.DMA_pending := by
  have h1 := io_write_keeps_dma env (after_decode rom env s d i) d i hd
  unfold mem_write_byte
  simp only []
  split_ifs <;> simp [h1]

theorem mem_write_word_keeps_dma (s : State) (d i : Nat) :
    (mem_write_word s d i).DMA_pending = s.DMA_pending := by
  unfold mem_write_word
  split_ifs <;> rfl

theorem mem_get_byte_keeps_idle (rom : Rom) (env : Env) (s : State) (a : Nat)
    (h0 : s.DMA_pending = 0) : (mem_get_byte rom env s a).2.DMA_pending = 0 := by
  by_cases ha : a < 0x8000
  · rw [mem_get_byte_rom_state rom env s a ha, h0]
  · rw [mem_get_byte_idle rom env s a h0 (by omega), decode_high_dma, h0]

theorem mem_get_word_keeps_idle (rom : Rom) (env : Env) (s : State) (a : Nat)
    (h0 : s.DMA_pending = 0) : (mem_get_word rom env s a).2.DMA_pending = 0 := by
  unfold mem_get_word
  split_ifs
  · exact mem_get_byte_keeps_idle rom env _ _ (mem_get_byte_keeps_idle rom env s a h0)
  · exact h0

/-- C12, counterexample: a DMA is triggered at cycle 1000 and address `0x100`
is read at cycle 1005.  The read returns the ROM byte 5, not the backing-store
byte at `0xFE00 + 5`, which is 0. -/
theorem dma_window_rom_read_not_overlaid :
    (mem_get_byte (sampleRom Mapper.NROM) (sampleEnv 1005 passDecoder)
      (mem_write_byte (sampleRom Mapper.NROM) (sampleEnv 1000 passDecoder)
        (gameboy_mem_init boot) 0xFF46 0xC0) 0x100).1 = 5 ∧
    (mem_write_byte (sampleRom Mapper.NROM) (sampleEnv 1000 passDecoder)
      (gameboy_mem_init boot) 0xFF46 0xC0).mem (0xFE00 + (1005 - 1000)) = 0 ∧
    (mem_write_byte (sampleRom Mapper.NROM) (sampleEnv 1000 passDecoder)
      (gameboy_mem_init boot) 0xFF46 0xC0).DMA_pending = 1000 := by
  decide

/-- C12, amended: let a DMA be in flight since a non-zero cycle `T`
(`DMA_pending = T`) and let the 32-bit cycle counter read `c ≥ T`.  For an
address in `[0x8000,0xFF80)`: if `c - T < 160`, `read_byte` returns
`mem[0xFE00 + (c - T)]` and changes nothing; if `c - T ≥ 160`, it behaves as
in the idle state, returning the normally decoded value, and leaves the DMA
state idle.  For an address below `0x8000` it returns the ROM byte and leaves
the state, the DMA state included, as it was.  From an idle state every
operation other than a write to `0xFF46` leaves the DMA state idle, and an
idle read at or above `0x8000` is the plain decoding of the address. -/
theorem dma_window_reads (rom : Rom) (env : Env) (s : State) (a : Nat)
    (hT : s.DMA_pending ≠ 0) (hc : s.DMA_pending ≤ env.cycles) (hc2 : env.cycles < 2 ^ 32) :
    (0x8000 ≤ a → a < 0xFF80 → env.cycles - s.DMA_pending < 160 →
      mem_get_byte rom env s a = (s.mem (0xFE00 + (env.cycles - s.DMA_pending)), s)) ∧
    (0x8000 ≤ a → a < 0xFF80 → 160 ≤ env.cycles - s.DMA_pending →
      mem_get_byte rom env s a = mem_get_byte rom env { s with DMA_pending := 0 } a ∧
      (mem_get_byte rom env s a).2.DMA_pending = 0) ∧
    (a < 0x8000 →
      mem_get_byte rom env s a =
        (rom.bytes (if a < 0x4000 then s.rom0 + a else s.romx + (a - 0x4000)), s)) ∧
    (∀ (t : State) (op : Op), t.DMA_pending = 0 →
      (∀ e i, op ≠ Op.write_byte e 0xFF46 i) → (op.run rom t).DMA_pending = 0) ∧
    (∀ (t : State) (e : Env) (b : Nat), t.DMA_pending = 0 → 0x8000 ≤ b →
      mem_get_byte rom e t b = decode_high e t b) := by
  have hel := dma_elapsed_sub env s hc hc2
  refine ⟨fun ha ha2 he => ?_, fun ha ha2 he => ?_, fun ha => ?_, fun t op h0 hop => ?_,
    fun t e b h0 hb => mem_get_byte_idle rom e t b h0 hb⟩
  · rw [mem_get_byte_overlay rom env s a hT ha ha2 (by rw [hel]; exact he), hel]
  · have h1 : mem_get_byte rom env s a = decode_high env { s with DMA_pending := 0 } a :=
      mem_get_byte_expired rom env s a hT ha ha2 (by rw [hel]; exact he)
    refine ⟨?_, ?_⟩
    · rw [h1, mem_get_byte_idle rom env { s with DMA_pending := 0 } a rfl ha]
    · rw [h1, decode_high_dma]
  · unfold mem_get_byte
    by_cases h4 : a < 0x4000
    · rw [if_pos h4, if_pos h4]
    · rw [if_neg h4, if_pos ha, if_neg h4]
  · cases op with
    | get_byte e i => exact mem_get_byte_keeps_idle rom e t i h0
    | get_word e i => exact mem_get_word_keeps_idle rom e t i h0
    | write_byte e d i =>
      have hd : d ≠ 0xFF46 := fun h => hop e i (by rw [h])
      show (mem_write_byte rom e t d i).DMA_pending = 0
      rw [mem_write_byte_keeps_dma rom e t d i hd, h0]
    | write_word d i =>
      show (mem_write_word t d i).DMA_pending = 0
      rw [mem_write_word_keeps_dma, h0]
    | bank_switch n => exact h0
    | sram_clear_dirty => exact h0

theorem dma_window_reads_witness :
    mem_get_byte (sampleRom Mapper.NROM) (sampleEnv 1005 passDecoder)
        (mem_write_byte (sampleRom Mapper.NROM) (sampleEnv 1000 passDecoder)
          (gameboy_mem_init boot) 0xFF46 0xC0) 0xC123
      = ((mem_write_byte (sampleRom Mapper.NROM) (sampleEnv 1000 passDecoder)
          (gameboy_mem_init boot) 0xFF46 0xC0).mem
            (0xFE00 + ((sampleEnv 1005 passDecoder).cycles
              - (mem_write_byte (sampleRom Mapper.NROM) (sampleEnv 1000 passDecoder)
                  (gameboy_mem_init boot) 0xFF46 0xC0).DMA_pending)),
        mem_write_byte (sampleRom Mapper.NROM) (sampleEnv 1000 passDecoder)
          (gameboy_mem_init boot) 0xFF46 0xC0) :=
  (dma_window_reads (sampleRom Mapper.NROM) (sampleEnv 1005 passDecoder)
    (mem_write_byte (sampleRom Mapper.NROM) (sampleEnv 1000 passDecoder)
      (gameboy_mem_init boot) 0xFF46 0xC0) 0xC123 (by decide) (by decide) (by decide)).1
    (by decide) (by decide) (by decide)

/-! ## The joypad register -/

theorem mask4_lt (a b c d : Nat) (ha : a ≤ 1) (hb : b ≤ 1) (hc : c ≤ 1) (hd : d ≤ 1) :
    ((a <<< 3) ||| (b <<< 2) ||| (c <<< 1) ||| d) < 16 := by
  interval_cases a <;> interval_cases b <;> interval_cases c <;> interval_cases d <;> decide

theorem select_bits (v : Nat) : (v &&& 0x20) ||| (v &&& 0x10) = v &&& 0x30 := by
  have h : (0x20 ||| 0x10 : Nat) = 0x30 := by decide
  rw [← Nat.and_or_distrib_left, h]

/-- The byte composed by the case `0xFF00` when the mask is a 4-bit value. -/
theorem joypad_byte (v m : Nat) (hm : m < 16) :
    (0xC0 ||| (0xF ^^^ m) ||| ((v &&& 0x20) ||| (v &&& 0x10))) % 256
      = 0xC0 ||| (v &&& 0x30) ||| (0x0F ^^^ m) := by
  have h1 : (0xF ^^^ m) < 2 ^ 8 :=
    Nat.xor_lt_two_pow (by decide) (Nat.lt_trans hm (by decide))
  have h2 : (v &&& 0x30) < 2 ^ 8 := Nat.and_lt_two_pow v (by decide)
  have h3 : (0xC0 ||| (v &&& 0x30) ||| (0x0F ^^^ m)) < 2 ^ 8 :=
    Nat.or_lt_two_pow (Nat.or_lt_two_pow (by decide) h2) h1
  rw [select_bits, Nat.or_assoc, Nat.or_comm (0xF ^^^ m) (v &&& 0x30), ← Nat.or_assoc]
  exact Nat.mod_eq_of_lt h3

/-- The state after an unfiltered write to `0xFF00`: the two select lines hold
the bits `0x20` and `0x10` of the value, which is also stored. -/
theorem mem_write_byte_joypad (rom : Rom) (env : Env) (s : State) (v : Nat)
    (hf : (mapper_decode rom env 0xFF00 v).1.filtered = 0) :
    mem_write_byte rom env s 0xFF00 v =
      { after_decode rom env s 0xFF00 v with
        joypad_select_buttons := v &&& 0x20, joypad_select_directions := v &&& 0x10,
        mem := store s.mem 0xFF00 v } := by
  have hio : io_write env (after_decode rom env s 0xFF00 v) 0xFF00 v =
      { after_decode rom env s 0xFF00 v with
        joypad_select_buttons := v &&& 0x20, joypad_select_directions := v &&& 0x10 } := by
    unfold io_write
    rw [if_pos rfl]
  rw [mem_write_byte_unfiltered rom env s 0xFF00 v hf (by decide) (by decide), hio,
    after_decode_mem]

/-- The value read at `0xFF00` with no DMA in flight, in terms of the select
lines. -/
theorem joypad_read_value (env : Env) (s : State) :
    (joypad_read env s).1 =
      (0xC0 ||| (0xF ^^^
          (if s.joypad_select_directions = 0 then sdl_get_directions env.buttons % 256
            else if s.joypad_select_buttons = 0 then sdl_get_buttons env.buttons % 256
            else 0))
        ||| (s.joypad_select_buttons ||| s.joypad_select_directions)) % 256 := by
  unfold joypad_read
  by_cases h1 : s.joypad_select_directions = 0 <;> by_cases h2 : s.joypad_select_buttons = 0 <;>
    simp only [h1, h2, if_true, if_false]

/-- C13: after an unfiltered write of `v` to `0xFF00`, with no DMA in flight
and every button 0 or 1, `read_byte(0xFF00)` returns
`0xC0 | (v & 0x30) | (0x0F ^ mask)`, where `mask` is the direction mask
`down<<3 | up<<2 | left<<1 | right` when bit `0x10` of `v` is clear, the button
mask `start<<3 | select<<2 | b<<1 | a` when only bit `0x20` is clear, and 0 when
both bits are set.  After writing `0x30` the read returns `0xFF`. -/
theorem joypad_read_layout (rom : Rom) (envW envR : Env) (s : State) (v : Nat)
    (hdma : s.DMA_pending = 0)
    (hf : rom.mapper = Mapper.NROM ∨ (mapper_decode rom envW 0xFF00 v).1.filtered = 0)
    (hb : envR.buttons.button_start ≤ 1 ∧ envR.buttons.button_select ≤ 1 ∧
      envR.buttons.button_a ≤ 1 ∧ envR.buttons.button_b ≤ 1 ∧
      envR.buttons.button_down ≤ 1 ∧ envR.buttons.button_up ≤ 1 ∧
      envR.buttons.button_left ≤ 1 ∧ envR.buttons.button_right ≤ 1) :
    (mem_get_byte rom envR (mem_write_byte rom envW s 0xFF00 v) 0xFF00).1 =
      0xC0 ||| (v &&& 0x30) |||
        (0x0F ^^^
          (if v &&& 0x10 = 0 then
            (envR.buttons.button_down <<< 3) ||| (envR.buttons.button_up <<< 2) |||
              (envR.buttons.button_left <<< 1) ||| envR.buttons.button_right
          else if v &&& 0x20 = 0 then
            (envR.buttons.button_start <<< 3) ||| (envR.buttons.button_select <<< 2) |||
              (envR.buttons.button_b <<< 1) ||| envR.buttons.button_a
          else 0)) ∧
    (v = 0x30 →
      (mem_get_byte rom envR (mem_write_byte rom envW s 0xFF00 v) 0xFF00).1 = 0xFF) := by
  obtain ⟨b1, b2, b3, b4, b5, b6, b7, b8⟩ := hb
  have hf0 := unfiltered_of rom envW 0xFF00 v (by decide) hf
  have hw := mem_write_byte_joypad rom envW s v hf0
  have hd : (mem_write_byte rom envW s 0xFF00 v).DMA_pending = 0 := by
    rw [hw]
    exact (after_decode_dma rom envW s 0xFF00 v).trans hdma
  have hjb : (mem_write_byte rom envW s 0xFF00 v).joypad_select_buttons = v &&& 0x20 := by
    rw [hw]
  have hjd : (mem_write_byte rom envW s 0xFF00 v).joypad_select_directions = v &&& 0x10 := by
    rw [hw]
  have hdirs := mask4_lt _ _ _ _ b5 b6 b7 b8
  have hbtns := mask4_lt _ _ _ _ b1 b2 b4 b3
  have hdm : sdl_get_directions envR.buttons % 256 =
      (envR.buttons.button_down <<< 3) ||| (envR.buttons.button_up <<< 2) |||
        (envR.buttons.button_left <<< 1) ||| envR.buttons.button_right := by
    unfold sdl_get_directions
    omega
  have hbm : sdl_get_buttons envR.buttons % 256 =
      (envR.buttons.button_start <<< 3) ||| (envR.buttons.button_select <<< 2) |||
        (envR.buttons.button_b <<< 1) ||| envR.buttons.button_a := by
    unfold sdl_get_buttons
    omega
  have hread : (mem_get_byte rom envR (mem_write_byte rom envW s 0xFF00 v) 0xFF00).1 =
      (joypad_read envR (mem_write_byte rom envW s 0xFF00 v)).1 := by
    rw [mem_get_byte_idle rom envR _ 0xFF00 hd (by decide)]
    unfold decode_high io_read
    rw [if_neg (by decide), if_pos rfl]
  have main : (mem_get_byte rom envR (mem_write_byte rom envW s 0xFF00 v) 0xFF00).1 =
      0xC0 ||| (v &&& 0x30) |||
        (0x0F ^^^
          (if v &&& 0x10 = 0 then
            (envR.buttons.button_down <<< 3) ||| (envR.buttons.button_up <<< 2) |||
              (envR.buttons.button_left <<< 1) ||| envR.buttons.button_right
          else if v &&& 0x20 = 0 then
            (envR.buttons.button_start <<< 3) ||| (envR.buttons.button_select <<< 2) |||
              (envR.buttons.button_b <<< 1) ||| envR.buttons.button_a
          else 0)) := by
    rw [hread, joypad_read_value, hjb, hjd, hdm, hbm]
    by_cases h1 : v &&& 0x10 = 0
    · rw [if_pos h1]
      exact joypad_byte v _ hdirs
    · rw [if_neg h1]
      by_cases h2 : v &&& 0x20 = 0
      · rw [if_pos h2]
        exact joypad_byte v _ hbtns
      · rw [if_neg h2]
        exact joypad_byte v 0 (by decide)
  refine ⟨main, fun hv => ?_⟩
  have e1 : ¬ ((0x30 : Nat) &&& 0x10 = 0) := by decide
  have e2 : ¬ ((0x30 : Nat) &&& 0x20 = 0) := by decide
  rw [main, hv, if_neg e1, if_neg e2]
  decide

theorem joypad_read_layout_witness :
    (mem_get_byte (sampleRom Mapper.NROM) (sampleEnv 10 passDecoder)
      (mem_write_byte (sampleRom Mapper.NROM) (sampleEnv 5 passDecoder)
        (gameboy_mem_init boot) 0xFF00 0x30) 0xFF00).1 = 0xFF :=
  (joypad_read_layout (sampleRom Mapper.NROM) (sampleEnv 5 passDecoder)
    (sampleEnv 10 passDecoder) (gameboy_mem_init boot) 0x30 rfl (Or.inl rfl)
    (by decide)).2 rfl

/-! ## Initialisation -/

/-- C14, counterexample: `gameboy_mem_init` is run on a state in which a DMA
was triggered at cycle 1000.  Afterwards the DMA is still in flight, and at
cycle 1005 the read of `0xFF40` is overlaid: it returns 0 although the
register holds `0x91`. -/
theorem init_keeps_dma_in_flight :
    (gameboy_mem_init
      (mem_write_byte (sampleRom Mapper.NROM) (sampleEnv 1000 passDecoder)
        (gameboy_mem_init boot) 0xFF46 0xC0)).DMA_pending = 1000 ∧
    (mem_get_byte (sampleRom Mapper.NROM) (sampleEnv 1005 passDecoder)
      (gameboy_mem_init
        (mem_write_byte (sampleRom Mapper.NROM) (sampleEnv 1000 passDecoder)
          (gameboy_mem_init boot) 0xFF46 0xC0)) 0xFF40).1 = 0 ∧
    (gameboy_mem_init
      (mem_write_byte (sampleRom Mapper.NROM) (sampleEnv 1000 passDecoder)
        (gameboy_mem_init boot) 0xFF46 0xC0)).mem 0xFF40 = 0x91 := by
  decide

/-- C14, amended: for every prior state, after `gameboy_mem_init` the
switchable-bank index is 1, a read of `a` in `[0x4000,0x8000)` returns the ROM
byte at offset `0x4000 + (a - 0x4000)`, the dirty flag is clear and the
sequence counter is 0; when the prior state has no DMA in flight, as at
program start, the DMA state is idle afterwards and no read at or above
`0x8000` is overlaid. -/
theorem init_resets (rom : Rom) (env : Env) (s : State) (a : Nat) :
    (gameboy_mem_init s).romx_bank = 1 ∧
    (0x4000 ≤ a → a < 0x8000 →
      mem_get_byte rom env (gameboy_mem_init s) a
        = (rom.bytes (0x4000 + (a - 0x4000)), gameboy_mem_init s)) ∧
    (gameboy_mem_init s).sram_dirty = 0 ∧
    (gameboy_mem_init s).sram_seq = 0 ∧
    (s.DMA_pending = 0 →
      (gameboy_mem_init s).DMA_pending = 0 ∧
      ∀ b, 0x8000 ≤ b →
        mem_get_byte rom env (gameboy_mem_init s) b = decode_high env (gameboy_mem_init s) b) ∧
    (gameboy_mem_init boot).DMA_pending = 0 := by
  refine ⟨rfl, fun ha ha2 => ?_, rfl, rfl, fun h0 => ⟨h0, fun b hb => ?_⟩, rfl⟩
  · have h1 : ¬ a < 0x4000 := by omega
    unfold mem_get_byte
    rw [if_neg h1, if_pos ha2]
    rfl
  · exact mem_get_byte_idle rom env (gameboy_mem_init s) b h0 hb

theorem init_resets_witness :
    (gameboy_mem_init boot).DMA_pending = 0 ∧
    mem_get_byte scenarioRom (sampleEnv 0 passDecoder) (gameboy_mem_init boot) 0xC000
      = decode_high (sampleEnv 0 passDecoder) (gameboy_mem_init boot) 0xC000 :=
  have h := (init_resets scenarioRom (sampleEnv 0 passDecoder) boot 0x4000).2.2.2.2.1 rfl
  ⟨h.1, h.2 0xC000 (by decide)⟩

/-- A register address with no case in the `switch` of `mem_get_byte` reads
the backing store and calls nothing. -/
theorem io_read_plain (env : Env) (s : State) (i : Nat)
    (h : i ∉ [0xFF00, 0xFF04, 0xFF05, 0xFF06, 0xFF07, 0xFF0F, 0xFF41, 0xFF44, 0xFF4D, 0xFFFF]) :
    io_read env s i = (s.mem i, s) := by
  simp only [List.mem_cons, List.mem_singleton, List.not_mem_nil, or_false, not_or] at h
  obtain ⟨h0, h1, h2, h3, h4, h5, h6, h7, h8, h9⟩ := h
  unfold io_read
  rw [if_neg h0, if_neg h1, if_neg h2, if_neg h3, if_neg h4, if_neg h5, if_neg h6, if_neg h7,
    if_neg h8, if_neg h9]

/-- With no DMA in flight, a read of a register address in `[0xFF00,0xFF80)`
that has no getter is a plain load. -/
theorem mem_get_byte_plain_register (rom : Rom) (env : Env) (s : State) (i : Nat)
    (h0 : s.DMA_pending = 0) (hi : 0xFF00 ≤ i)
    (h : i ∉ [0xFF00, 0xFF04, 0xFF05, 0xFF06, 0xFF07, 0xFF0F, 0xFF41, 0xFF44, 0xFF4D, 0xFFFF]) :
    mem_get_byte rom env s i = (s.mem i, s) := by
  have h1 : ¬ i < 0xFF00 := by omega
  rw [mem_get_byte_idle rom env s i h0 (by omega)]
  unfold decode_high
  rw [if_neg h1, io_read_plain env s i h]

/-- C15, counterexample: `gameboy_mem_init` is run on a state in which a DMA
was triggered at cycle 1000.  The register `0xFF10` holds its power-up value
`0x80`, but at cycle 1003 `read_byte(0xFF10)` is overlaid and returns 0. -/
theorem init_seed_read_overlaid :
    (gameboy_mem_init
      (mem_write_byte (sampleRom Mapper.NROM) (sampleEnv 1000 passDecoder)
        (gameboy_mem_init boot) 0xFF46 0xC0)).mem 0xFF10 = 0x80 ∧
    (mem_get_byte (sampleRom Mapper.NROM) (sampleEnv 1003 passDecoder)
      (gameboy_mem_init
        (mem_write_byte (sampleRom Mapper.NROM) (sampleEnv 1000 passDecoder)
          (gameboy_mem_init boot) 0xFF46 0xC0)) 0xFF10).1 = 0 := by
  decide

/-- C15, amended: after `gameboy_mem_init`, from any prior state, the backing
store holds the listed power-up values at the listed registers and zero at
every other index; and when no DMA is in flight at initialisation, as at
program start, `read_byte` returns these values at those addresses without
calling any getter and without changing the state. -/
theorem init_backing_store (rom : Rom) (env : Env) (s : State) :
    (∀ p ∈ ([(0xFF10, 0x80), (0xFF11, 0xBF), (0xFF12, 0xF3), (0xFF14, 0xBF), (0xFF16, 0x3F),
        (0xFF19, 0xBF), (0xFF1A, 0x7F), (0xFF1B, 0xFF), (0xFF1C, 0x9F), (0xFF1E, 0xBF),
        (0xFF20, 0xFF), (0xFF23, 0xBF), (0xFF24, 0x77), (0xFF25, 0xF3), (0xFF26, 0xF1),
        (0xFF40, 0x91), (0xFF47, 0xFC), (0xFF48, 0xFF), (0xFF49, 0xFF)] : List (Nat × Nat)),
      (gameboy_mem_init s).mem p.1 = p.2) ∧
    (∀ k, k ∉ ([0xFF10, 0xFF11, 0xFF12, 0xFF14, 0xFF16, 0xFF19, 0xFF1A, 0xFF1B, 0xFF1C, 0xFF1E,
        0xFF20, 0xFF23, 0xFF24, 0xFF25, 0xFF26, 0xFF40, 0xFF47, 0xFF48, 0xFF49] : List Nat) →
      (gameboy_mem_init s).mem k = 0) ∧
    (s.DMA_pending = 0 →
      ∀ p ∈ ([(0xFF10, 0x80), (0xFF11, 0xBF), (0xFF12, 0xF3), (0xFF14, 0xBF), (0xFF16, 0x3F),
        (0xFF19, 0xBF), (0xFF1A, 0x7F), (0xFF1B, 0xFF), (0xFF1C, 0x9F), (0xFF1E, 0xBF),
        (0xFF20, 0xFF), (0xFF23, 0xBF), (0xFF24, 0x77), (0xFF25, 0xF3), (0xFF26, 0xF1),
        (0xFF40, 0x91), (0xFF47, 0xFC), (0xFF48, 0xFF), (0xFF49, 0xFF)] : List (Nat × Nat)),
        mem_get_byte rom env (gameboy_mem_init s) p.1 = (p.2, gameboy_mem_init s)) := by
  have hval : ∀ p ∈ ([(0xFF10, 0x80), (0xFF11, 0xBF), (0xFF12, 0xF3), (0xFF14, 0xBF), (0xFF16, 0x3F),
        (0xFF19, 0xBF), (0xFF1A, 0x7F), (0xFF1B, 0xFF), (0xFF1C, 0x9F), (0xFF1E, 0xBF),
        (0xFF20, 0xFF), (0xFF23, 0xBF), (0xFF24, 0x77), (0xFF25, 0xF3), (0xFF26, 0xF1),
        (0xFF40, 0x91), (0xFF47, 0xFC), (0xFF48, 0xFF), (0xFF49, 0xFF)] : List (Nat × Nat)),
      (gameboy_mem_init s).mem p.1 = p.2 := by
    intro p hp
    simp only [List.mem_cons, List.mem_singleton, List.not_mem_nil, or_false] at hp
    rcases hp with h | h | h | h | h | h | h | h | h | h | h | h | h | h | h | h | h | h | h <;>
      (subst h; rfl)
  refine ⟨hval, fun k hk => ?_, fun h0 p hp => ?_⟩
  · simp only [List.mem_cons, List.mem_singleton, List.not_mem_nil, or_false, not_or] at hk
    show (power_up_defaults.foldl (fun m kv => store m kv.1 kv.2) (fun _ => 0)) k = 0
    rw [foldl_store_other]
    intro p hp
    simp only [power_up_defaults, List.mem_cons, List.mem_singleton, List.not_mem_nil,
      or_false] at hp
    rcases hp with h | h | h | h | h | h | h | h | h | h | h | h | h | h | h | h | h | h | h <;>
      (subst h; show _ ≠ k; omega)
  · have hv := hval p hp
    have hreg : 0xFF00 ≤ p.1 ∧
        p.1 ∉ [0xFF00, 0xFF04, 0xFF05, 0xFF06, 0xFF07, 0xFF0F, 0xFF41, 0xFF44, 0xFF4D, 0xFFFF] := by
      simp only [List.mem_cons, List.mem_singleton, List.not_mem_nil, or_false] at hp
      rcases hp with h | h | h | h | h | h | h | h | h | h | h | h | h | h | h | h | h | h | h <;>
        (subst h; decide)
    rw [mem_get_byte_plain_register rom env (gameboy_mem_init s) p.1 h0 hreg.1 hreg.2, hv]

theorem init_backing_store_witness :
    mem_get_byte scenarioRom (sampleEnv 0 passDecoder) (gameboy_mem_init boot) 0xFF40
      = (0x91, gameboy_mem_init boot) :=
  (init_backing_store scenarioRom (sampleEnv 0 passDecoder) boot).2.2 rfl (0xFF40, 0x91)
    (by decide)

/-! ## Filtered writes outside external RAM -/

theorem foldl_switch_select (l : List Nat) (s : State) :
    (l.foldl mem_bank_switch s).joypad_select_buttons = s.joypad_select_buttons ∧
    (l.foldl mem_bank_switch s).joypad_select_directions = s.joypad_select_directions ∧
    (l.foldl mem_bank_switch s).calls = s.calls := by
  induction l generalizing s with
  | nil => exact ⟨rfl, rfl, rfl⟩
  | cons n l ih =>
    obtain ⟨h1, h2, h3⟩ := ih (mem_bank_switch s n)
    exact ⟨h1, h2, h3⟩

theorem after_decode_select (rom : Rom) (env : Env) (s : State) (d i : Nat) :
    (after_decode rom env s d i).joypad_select_buttons = s.joypad_select_buttons ∧
    (after_decode rom env s d i).joypad_select_directions = s.joypad_select_directions ∧
    (after_decode rom env s d i).calls = s.calls ++ (mapper_decode rom env d i).2 := by
  unfold after_decode
  obtain ⟨h1, h2, h3⟩ := foldl_switch_select (mapper_decode rom env d i).1.switches
    { s with calls := s.calls ++ (mapper_decode rom env d i).2 }
  exact ⟨h1, h2, h3⟩

/-- The first `switch` records at most the call of one mapper decoder. -/
theorem mapper_decode_calls (rom : Rom) (env : Env) (d i : Nat) :
    ∀ c ∈ (mapper_decode rom env d i).2,
      c = Call.MBC1_write_byte d i ∨ c = Call.MBC3_write_byte d i := by
  intro c hc
  unfold mapper_decode at hc
  cases hm : rom.mapper <;> rw [hm] at hc <;> simp at hc
  · exact Or.inl hc
  · exact Or.inr hc
  · exact Or.inr hc

/-- On a no-mapper cartridge the first `switch` changes nothing. -/
theorem after_decode_nrom (rom : Rom) (env : Env) (s : State) (d i : Nat)
    (hN : rom.mapper = Mapper.NROM) : after_decode rom env s d i = s := by
  unfold after_decode mapper_decode
  rw [hN]
  simp

/-- A filtered write outside external RAM ends after the first `switch`. -/
theorem mem_write_byte_filtered_outside (rom : Rom) (env : Env) (s : State) (d i : Nat)
    (hf : (mapper_decode rom env d i).1.filtered ≠ 0) (hd : ¬ (0xA000 ≤ d ∧ d < 0xC000)) :
    mem_write_byte rom env s d i = after_decode rom env s d i := by
  have hr : ¬ (d ≥ 0xA000 ∧ d ≤ 0xBFFF) := by omega
  unfold mem_write_byte
  simp only [if_pos hf, if_neg hr]

/-- C16: for an address outside `[0xA000,0xC000)`, a write the mapper reports
as filtered leaves the backing store, the DMA state, the joypad select lines,
the dirty flag and the sequence counter unchanged and records nothing but the
call of the mapper decoder, so no peripheral setter is called.  On a no-mapper
cartridge the write is filtered exactly when `d < 0x8000`, and then the whole
state, bank index and bank-switch counter included, is unchanged, so every
later operation behaves as before. -/
theorem filtered_write_no_effect (rom : Rom) (env : Env) (s : State) (d v : Nat)
    (hd : ¬ (0xA000 ≤ d ∧ d < 0xC000)) :
    ((mapper_decode rom env d v).1.filtered ≠ 0 →
      (mem_write_byte rom env s d v).mem = s.mem ∧
      (mem_write_byte rom env s d v).DMA_pending = s.DMA_pending ∧
      (mem_write_byte rom env s d v).joypad_select_buttons = s.joypad_select_buttons ∧
      (mem_write_byte rom env s d v).joypad_select_directions = s.joypad_select_directions ∧
      (mem_write_byte rom env s d v).sram_dirty = s.sram_dirty ∧
      (mem_write_byte rom env s d v).sram_seq = s.sram_seq ∧
      ∃ l, (mem_write_byte rom env s d v).calls = s.calls ++ l ∧
        ∀ c ∈ l, c = Call.MBC1_write_byte d v ∨ c = Call.MBC3_write_byte d v) ∧
    (rom.mapper = Mapper.NROM → ((mapper_decode rom env d v).1.filtered ≠ 0 ↔ d < 0x8000)) ∧
    (rom.mapper = Mapper.NROM → d < 0x8000 → mem_write_byte rom env s d v = s) := by
  have hnrom : rom.mapper = Mapper.NROM →
      ((mapper_decode rom env d v).1.filtered ≠ 0 ↔ d < 0x8000) := by
    intro hN
    unfold mapper_decode
    rw [hN]
    by_cases h : d < 0x8000 <;> simp [h]
  refine ⟨fun hf => ?_, hnrom, fun hN hlt => ?_⟩
  · obtain ⟨j1, j2, j3⟩ := after_decode_select rom env s d v
    rw [mem_write_byte_filtered_outside rom env s d v hf hd]
    exact ⟨after_decode_mem rom env s d v, after_decode_dma rom env s d v, j1, j2,
      after_decode_dirty rom env s d v, after_decode_seq rom env s d v,
      (mapper_decode rom env d v).2, j3, mapper_decode_calls rom env d v⟩
  · rw [mem_write_byte_filtered_outside rom env s d v ((hnrom hN).2 hlt) hd,
      after_decode_nrom rom env s d v hN]

theorem filtered_write_no_effect_witness :
    mem_write_byte (sampleRom Mapper.NROM) (sampleEnv 0 passDecoder)
      (gameboy_mem_init boot) 0x2000 5 = gameboy_mem_init boot :=
  (filtered_write_no_effect (sampleRom Mapper.NROM) (sampleEnv 0 passDecoder)
    (gameboy_mem_init boot) 0x2000 5 (by decide)).2.2 rfl (by decide)

/-! ## Bounds of the backing-store indices -/

theorem io_read_idx_mem (i j : Nat) (h : j ∈ io_read_idx i) : j = i := by
  unfold io_read_idx at h
  repeat' split at h
  all_goals simp at h
  exact h

theorem decode_high_idx_mem (i j : Nat) (h : j ∈ decode_high_idx i) : j = i := by
  unfold decode_high_idx at h
  split at h
  · simpa using h
  · exact io_read_idx_mem i j h

/-- Every index read by `mem_get_byte` is the address itself or the overlay
index, which lies in the OAM range. -/
theorem mem_get_byte_idx_mem (env : Env) (s : State) (a j : Nat)
    (h : j ∈ mem_get_byte_idx env s a) :
    j = a ∨ (j = 0xFE00 + dma_elapsed env s ∧ 0xFE00 ≤ j ∧ j < 0xFEA0) := by
  unfold mem_get_byte_idx at h
  split_ifs at h with h1 h2 h3 h4
  · simp at h
  · simp at h
  · exact Or.inl (decode_high_idx_mem a j h)
  · have hj : j = 0xFE00 + dma_elapsed env s := by simpa using h
    exact Or.inr ⟨hj, by omega, by omega⟩
  · exact Or.inl (decode_high_idx_mem a j h)

/-- C18: the DMA-related backing-store indices are in bounds.  Whatever the
state, the address and the two cycle-counter values, an index read by
`read_byte` is the address itself or the overlay index `0xFE00 + elapsed`,
which lies in `[0xFE00,0xFEA0)`; the overlaid read uses exactly that index; and
for `S` in `0..255` the indices of the copy source lie in
`[S*0x100, S*0x100 + 0xA0)`, those of the destination in `[0xFE00,0xFEA0)`, all
below `0x10000`. -/
theorem dma_indices_in_bounds (rom : Rom) (env : Env) (s : State) (a S : Nat)
    (hS : S < 256) :
    (∀ j ∈ mem_get_byte_idx env s a,
      j = a ∨ (j = 0xFE00 + dma_elapsed env s ∧ 0xFE00 ≤ j ∧ j < 0xFEA0 ∧ j < mem_size)) ∧
    (s.DMA_pending ≠ 0 → 0x8000 ≤ a → a < 0xFF80 → dma_elapsed env s < 160 →
      mem_get_byte_idx env s a = [0xFE00 + dma_elapsed env s] ∧
      (mem_get_byte rom env s a).1 = s.mem (0xFE00 + dma_elapsed env s)) ∧
    (∀ j ∈ dma_copy_src S, S * 0x100 ≤ j ∧ j < S * 0x100 + 0xA0 ∧ j < mem_size) ∧
    (∀ j ∈ dma_copy_dst, 0xFE00 ≤ j ∧ j < 0xFEA0 ∧ j < mem_size) := by
  refine ⟨fun j hj => ?_, fun h0 ha ha2 he => ⟨?_, ?_⟩, fun j hj => ?_, fun j hj => ?_⟩
  · rcases mem_get_byte_idx_mem env s a j hj with h | ⟨h1, h2, h3⟩
    · exact Or.inl h
    · exact Or.inr ⟨h1, h2, h3, by unfold mem_size; omega⟩
  · have h1 : ¬ a < 0x4000 := by omega
    have h2 : ¬ a < 0x8000 := by omega
    have h3 : ¬ dma_elapsed env s ≥ 160 := by omega
    unfold mem_get_byte_idx
    rw [if_neg h1, if_neg h2, if_pos ⟨h0, ha2⟩, if_neg h3]
  · rw [mem_get_byte_overlay rom env s a h0 ha ha2 he]
  · unfold dma_copy_src at hj
    rw [List.mem_map] at hj
    obtain ⟨k, hk, rfl⟩ := hj
    rw [List.mem_range] at hk
    unfold mem_size
    omega
  · unfold dma_copy_dst at hj
    rw [List.mem_map] at hj
    obtain ⟨k, hk, rfl⟩ := hj
    rw [List.mem_range] at hk
    unfold mem_size
    omega

theorem dma_indices_in_bounds_witness :
    (∀ j ∈ dma_copy_src 0xFF, 0xFF * 0x100 ≤ j ∧ j < 0xFF * 0x100 + 0xA0 ∧ j < mem_size) ∧
    (∀ j ∈ dma_copy_dst, 0xFE00 ≤ j ∧ j < 0xFEA0 ∧ j < mem_size) :=
  have h := dma_indices_in_bounds (sampleRom Mapper.NROM) (sampleEnv 0 passDecoder) boot 0xC000
    0xFF (by decide)
  ⟨h.2.2.1, h.2.2.2⟩

/-- For every address up to `0xFFFE` the word accesses stay inside the backing
store. -/
theorem word_access_in_bounds (rom : Rom) (env : Env) (s : State) (d : Nat)
    (hd : d ≤ 0xFFFE) :
    (∀ j ∈ mem_get_word_idx rom env s d, j < mem_size) ∧
    (∀ j ∈ mem_write_word_idx d, j < mem_size) := by
  constructor
  · intro j hj
    unfold mem_get_word_idx at hj
    unfold mem_size
    split_ifs at hj with h1
    · rw [List.mem_append] at hj
      rcases hj with hj | hj
      · rcases mem_get_byte_idx_mem env s d j hj with h | ⟨_, _, h⟩ <;> omega
      · rcases mem_get_byte_idx_mem env _ _ j hj with h | ⟨_, _, h⟩ <;> omega
    · simp only [List.mem_cons, List.mem_singleton, List.not_mem_nil, or_false] at hj
      omega
  · intro j hj
    unfold mem_write_word_idx at hj
    unfold mem_size
    simp only [List.mem_cons, List.mem_singleton, List.not_mem_nil, or_false] at hj
    omega

/-- C19, at the failing input `d = 0xFFFF`: `read_word` reads and `write_word`
writes index `0x10000`, which is not below the size `0x10000` of the backing
store; the high byte of the word written lands there. -/
theorem word_access_past_end (rom : Rom) (env : Env) (s : State) (w : Nat) :
    mem_get_word_idx rom env s 0xFFFF = [0xFFFF, 0x10000] ∧
    mem_write_word_idx 0xFFFF = [0xFFFF, 0x10000] ∧
    ¬ (0x10000 < mem_size) ∧
    (mem_get_word rom env s 0xFFFF).1 = (s.mem 0xFFFF ||| (s.mem 0x10000 <<< 8)) % 0x10000 ∧
    (mem_write_word s 0xFFFF w).mem 0x10000 = (w >>> 8) % 256 := by
  refine ⟨?_, rfl, by decide, ?_, ?_⟩
  · unfold mem_get_word_idx
    rw [if_neg (by decide)]
  · unfold mem_get_word
    rw [if_neg (by decide)]
  · rw [mem_write_word_mem]
    exact store_eq _ 0x10000 ((w >>> 8) % 256)

/-! ## The start cycle as the DMA state -/

/-- C20: after an unfiltered write to `0xFF46` the OAM copy is in the backing
store and the DMA state is the cycle count read.  If it reads 0 the MMU is
idle: from an idle state every read leaves the state idle and a read at or
above `0x8000` is the plain decoding of the address (below `0x8000` it is the
ROM byte), at any cycle count.  If it reads a non-zero value, a read in
`[0x8000,0xFF80)` is overlaid, and leaves the state as it is, while the elapsed
count is below 160; the first such read that observes an elapsed count of at
least 160 decodes normally and leaves the DMA state idle. -/
theorem dma_state_is_start_cycle (rom : Rom) (envW envR : Env) (s : State) (S a : Nat)
    (hf : rom.mapper = Mapper.NROM ∨ (mapper_decode rom envW 0xFF46 S).1.filtered = 0) :
    (mem_write_byte rom envW s 0xFF46 S).DMA_pending = cpu_get_cycles envW ∧
    (∀ k, k < 0xA0 → (mem_write_byte rom envW s 0xFF46 S).mem (0xFE00 + k) = s.mem (S * 0x100 + k)) ∧
    (cpu_get_cycles envW = 0 → (mem_write_byte rom envW s 0xFF46 S).DMA_pending = 0) ∧
    (∀ (u : State) (e : Env) (b : Nat), u.DMA_pending = 0 →
      (mem_get_byte rom e u b).2.DMA_pending = 0 ∧
      (0x8000 ≤ b → mem_get_byte rom e u b = decode_high e u b) ∧
      (b < 0x8000 → mem_get_byte rom e u b =
        (rom.bytes (if b < 0x4000 then u.rom0 + b else u.romx + (b - 0x4000)), u))) ∧
    (cpu_get_cycles envW ≠ 0 → 0x8000 ≤ a → a < 0xFF80 →
      (dma_elapsed envR (mem_write_byte rom envW s 0xFF46 S) < 160 →
        mem_get_byte rom envR (mem_write_byte rom envW s 0xFF46 S) a
          = ((mem_write_byte rom envW s 0xFF46 S).mem (0xFE00 + dma_elapsed envR (mem_write_byte rom envW s 0xFF46 S)), mem_write_byte rom envW s 0xFF46 S)) ∧
      (160 ≤ dma_elapsed envR (mem_write_byte rom envW s 0xFF46 S) →
        mem_get_byte rom envR (mem_write_byte rom envW s 0xFF46 S) a
          = decode_high envR { mem_write_byte rom envW s 0xFF46 S with DMA_pending := 0 } a ∧
        (mem_get_byte rom envR (mem_write_byte rom envW s 0xFF46 S) a).2.DMA_pending = 0)) := by
  have hf0 := unfiltered_of rom envW 0xFF46 S (by decide) hf
  have hw := mem_write_byte_dma rom envW s S hf0
  have hdma : (mem_write_byte rom envW s 0xFF46 S).DMA_pending = cpu_get_cycles envW := by
    rw [hw]
  refine ⟨hdma, fun k hk => ?_, fun h0 => hdma.trans h0, fun u e b hu => ⟨?_, ?_, ?_⟩,
    fun hT ha ha2 => ⟨fun he => ?_, fun he => ?_⟩⟩
  · rw [hw]
    exact dma_oam_byte s.mem S k hk
  · exact mem_get_byte_keeps_idle rom e u b hu
  · exact fun hb => mem_get_byte_idle rom e u b hu hb
  · intro hb
    unfold mem_get_byte
    by_cases h4 : b < 0x4000
    · rw [if_pos h4, if_pos h4]
    · rw [if_neg h4, if_pos hb, if_neg h4]
  · exact mem_get_byte_overlay rom envR _ a (by rw [hdma]; exact hT) ha ha2 he
  · have h1 := mem_get_byte_expired rom envR (mem_write_byte rom envW s 0xFF46 S) a (by rw [hdma]; exact hT) ha ha2 he
    exact ⟨h1, by rw [h1, decode_high_dma]⟩

theorem dma_state_is_start_cycle_witness :
    (mem_write_byte (sampleRom Mapper.NROM) (sampleEnv 0 passDecoder)
      (gameboy_mem_init boot) 0xFF46 0xC0).DMA_pending = 0 ∧
    (mem_write_byte (sampleRom Mapper.NROM) (sampleEnv 1000 passDecoder)
      (gameboy_mem_init boot) 0xFF46 0xC0).DMA_pending = 1000 :=
  ⟨(dma_state_is_start_cycle (sampleRom Mapper.NROM) (sampleEnv 0 passDecoder)
      (sampleEnv 5 passDecoder) (gameboy_mem_init boot) 0xC0 0xC000 (Or.inl rfl)).2.2.1 rfl,
    (dma_state_is_start_cycle (sampleRom Mapper.NROM) (sampleEnv 1000 passDecoder)
      (sampleEnv 1005 passDecoder) (gameboy_mem_init boot) 0xC0 0xC000 (Or.inl rfl)).1⟩

/-! ## Program order of the counter increment and the store -/

/-- The trace of `mem_write_byte` ends in the state the function returns. -/
theorem mem_write_byte_trace_last (rom : Rom) (env : Env) (s : State) (d i : Nat) :
    (mem_write_byte_trace rom env s d i).getLast? = some (mem_write_byte rom env s d i) := by
  unfold mem_write_byte_trace mem_write_byte
  simp only []
  split_ifs <;> rfl

/-- The trace of `mem_write_word` ends in the state the function returns. -/
theorem mem_write_word_trace_last (s : State) (d i : Nat) :
    (mem_write_word_trace s d i).getLast? = some (mem_write_word s d i) := by
  unfold mem_write_word_trace mem_write_word
  simp only []
  split_ifs <;> rfl

/-- The states of a byte write into external RAM that changes the stored
byte, on either path. -/
theorem mem_write_byte_trace_sram (rom : Rom) (env : Env) (s : State) (d i : Nat)
    (hd : 0xA000 ≤ d) (hd2 : d < 0xC000) (hne : s.mem d ≠ i) :
    mem_write_byte_trace rom env s d i =
      (if (mapper_decode rom env d i).1.filtered ≠ 0 then [s, after_decode rom env s d i]
        else [s, after_decode rom env s d i, after_decode rom env s d i]) ++
      [{ after_decode rom env s d i with sram_dirty := 1 },
        { after_decode rom env s d i with
          sram_dirty := 1, sram_seq := (s.sram_seq + 1) % 2 ^ 32 },
        { after_decode rom env s d i with
          sram_dirty := 1, sram_seq := (s.sram_seq + 1) % 2 ^ 32, mem := store s.mem d i }] := by
  have hr : d ≥ 0xA000 ∧ d ≤ 0xBFFF := ⟨hd, by omega⟩
  have hF : d ≠ 0xFFFF := by omega
  unfold mem_write_byte_trace
  simp only [io_write_of_lt env _ d i (by omega), after_decode_mem, after_decode_seq, hr, hF,
    and_self, if_true, if_false, if_pos hne]
  by_cases hf : (mapper_decode rom env d i).1.filtered ≠ 0
  · rw [if_pos hf, if_pos hf]
    rfl
  · rw [if_neg hf, if_neg hf]
    rfl

/-- The states of a word write that touches external RAM. -/
theorem mem_write_word_trace_sram (s : State) (d i : Nat) (hd : 0x9FFF ≤ d ∧ d ≤ 0xBFFF) :
    mem_write_word_trace s d i =
      [s,
        { s with sram_dirty := 1 },
        { s with sram_dirty := 1, sram_seq := (s.sram_seq + 1) % 2 ^ 32 },
        { s with
          sram_dirty := 1, sram_seq := (s.sram_seq + 1) % 2 ^ 32,
          mem := store s.mem d (i &&& 0xFF) },
        { s with
          sram_dirty := 1, sram_seq := (s.sram_seq + 1) % 2 ^ 32,
          mem := store (store s.mem d (i &&& 0xFF)) (d + 1) ((i >>> 8) % 256) }] := by
  unfold mem_write_word_trace
  rw [if_pos ((word_touches_sram d).2 hd)]

/-- C17, counterexample: in each of the three writes below the trace contains
a state in which the sequence counter is already 1 (it was 0 before the
write) while the backing store still holds the old byte 0 at `0xA000`; the
write then stores 7 (respectively `0x34`) there.  The writes are a byte write
on a no-mapper cartridge (unfiltered path), a byte write on a cartridge whose
decoder filters it (filtered path), and a word write. -/
theorem seq_incremented_before_store :
    ((gameboy_mem_init boot).sram_seq = 0 ∧ (gameboy_mem_init boot).mem 0xA000 = 0) ∧
    ((∃ t ∈ mem_write_byte_trace (sampleRom Mapper.NROM) (sampleEnv 0 passDecoder)
          (gameboy_mem_init boot) 0xA000 7,
        t.sram_seq = 1 ∧ t.mem 0xA000 = 0) ∧
      (mem_write_byte (sampleRom Mapper.NROM) (sampleEnv 0 passDecoder)
        (gameboy_mem_init boot) 0xA000 7).mem 0xA000 = 7) ∧
    ((∃ t ∈ mem_write_byte_trace (sampleRom Mapper.MBC1) (sampleEnv 0 grabDecoder)
          (gameboy_mem_init boot) 0xA000 7,
        t.sram_seq = 1 ∧ t.mem 0xA000 = 0) ∧
      (mem_write_byte (sampleRom Mapper.MBC1) (sampleEnv 0 grabDecoder)
        (gameboy_mem_init boot) 0xA000 7).mem 0xA000 = 7) ∧
    ((∃ t ∈ mem_write_word_trace (gameboy_mem_init boot) 0xA000 0x1234,
        t.sram_seq = 1 ∧ t.mem 0xA000 = 0) ∧
      (mem_write_word (gameboy_mem_init boot) 0xA000 0x1234).mem 0xA000 = 0x34) := by
  decide

/-- C17, amended: in a write that touches external RAM and counts it, the
program order is dirty flag, sequence counter, store.  For a byte write into
`[0xA000,0xC000)` that changes the stored byte, on the filtered and on the
unfiltered path, and for a word write with `d` in `[0x9FFF,0xBFFF]`: the trace
ends in the state the write returns; it contains a state in which the counter
is already incremented while the backing store still holds the old byte; and
every state of the trace in which the backing store has changed has the
counter incremented and the dirty flag set, so the store never precedes the
increment; and in the state returned the counter is incremented and the new
bytes are stored. -/
theorem sram_write_order (rom : Rom) (env : Env) (s : State) (d v : Nat) :
    ((0xA000 ≤ d ∧ d < 0xC000) ∧ s.mem d ≠ v →
      (mem_write_byte_trace rom env s d v).getLast? = some (mem_write_byte rom env s d v) ∧
      (∃ t ∈ mem_write_byte_trace rom env s d v,
        t.sram_seq = (s.sram_seq + 1) % 2 ^ 32 ∧ t.mem = s.mem) ∧
      (∀ t ∈ mem_write_byte_trace rom env s d v, ∀ k, t.mem k ≠ s.mem k →
        t.sram_seq = (s.sram_seq + 1) % 2 ^ 32 ∧ t.sram_dirty = 1) ∧
      (mem_write_byte rom env s d v).sram_seq = (s.sram_seq + 1) % 2 ^ 32 ∧
      (mem_write_byte rom env s d v).mem d = v) ∧
    ((0x9FFF ≤ d ∧ d ≤ 0xBFFF) →
      (mem_write_word_trace s d v).getLast? = some (mem_write_word s d v) ∧
      (∃ t ∈ mem_write_word_trace s d v,
        t.sram_seq = (s.sram_seq + 1) % 2 ^ 32 ∧ t.mem = s.mem) ∧
      (∀ t ∈ mem_write_word_trace s d v, ∀ k, t.mem k ≠ s.mem k →
        t.sram_seq = (s.sram_seq + 1) % 2 ^ 32 ∧ t.sram_dirty = 1) ∧
      (mem_write_word s d v).sram_seq = (s.sram_seq + 1) % 2 ^ 32 ∧
      (mem_write_word s d v).mem d = v &&& 0xFF ∧
      (mem_write_word s d v).mem (d + 1) = (v >>> 8) % 256) := by
  constructor
  · rintro ⟨⟨hd, hd2⟩, hne⟩
    have hres : (mem_write_byte rom env s d v).sram_seq = (s.sram_seq + 1) % 2 ^ 32 ∧
        (mem_write_byte rom env s d v).mem d = v := by
      rw [mem_write_byte_sram rom env s d v hd hd2, if_pos hne]
      exact ⟨rfl, store_eq s.mem d v⟩
    refine ⟨mem_write_byte_trace_last rom env s d v, ?_, ?_, hres.1, hres.2⟩
    · refine ⟨{ after_decode rom env s d v with
          sram_dirty := 1, sram_seq := (s.sram_seq + 1) % 2 ^ 32 }, ?_, rfl,
        after_decode_mem rom env s d v⟩
      rw [mem_write_byte_trace_sram rom env s d v hd hd2 hne]
      simp
    · intro t ht k hk
      rw [mem_write_byte_trace_sram rom env s d v hd hd2 hne] at ht
      have hm := after_decode_mem rom env s d v
      rw [List.mem_append] at ht
      rcases ht with ht | ht
      · exfalso
        by_cases hf : (mapper_decode rom env d v).1.filtered ≠ 0
        · rw [if_pos hf] at ht
          simp only [List.mem_cons, List.mem_singleton, List.not_mem_nil, or_false] at ht
          rcases ht with h | h <;> subst h
          · exact hk rfl
          · exact hk (by rw [hm])
        · rw [if_neg hf] at ht
          simp only [List.mem_cons, List.mem_singleton, List.not_mem_nil, or_false] at ht
          rcases ht with h | h | h <;> subst h
          · exact hk rfl
          · exact hk (by rw [hm])
          · exact hk (by rw [hm])
      · simp only [List.mem_cons, List.mem_singleton, List.not_mem_nil, or_false] at ht
        rcases ht with h | h | h <;> subst h
        · exact absurd (congrFun hm k) hk
        · exact ⟨rfl, rfl⟩
        · exact ⟨rfl, rfl⟩
  · intro hd
    have hres : (mem_write_word s d v).sram_seq = (s.sram_seq + 1) % 2 ^ 32 ∧
        (mem_write_word s d v).mem d = v &&& 0xFF ∧
        (mem_write_word s d v).mem (d + 1) = (v >>> 8) % 256 := by
      refine ⟨?_, ?_, ?_⟩
      · rw [mem_write_word_seq, if_pos hd]
      · rw [mem_write_word_mem, store_ne _ _ _ _ (by omega), store_eq]
      · rw [mem_write_word_mem, store_eq]
    refine ⟨mem_write_word_trace_last s d v, ?_, ?_, hres.1, hres.2.1, hres.2.2⟩
    · refine ⟨{ s with sram_dirty := 1, sram_seq := (s.sram_seq + 1) % 2 ^ 32 }, ?_, rfl, rfl⟩
      rw [mem_write_word_trace_sram s d v hd]
      simp
    · intro t ht k hk
      rw [mem_write_word_trace_sram s d v hd] at ht
      simp only [List.mem_cons, List.mem_singleton, List.not_mem_nil, or_false] at ht
      rcases ht with h | h | h | h | h <;> subst h
      · exact absurd rfl hk
      · exact absurd rfl hk
      · exact ⟨rfl, rfl⟩
      · exact ⟨rfl, rfl⟩
      · exact ⟨rfl, rfl⟩

theorem sram_write_order_witness :
    ∃ t ∈ mem_write_byte_trace (sampleRom Mapper.MBC3) (sampleEnv 0 grabDecoder)
        (gameboy_mem_init boot) 0xB000 0x12,
      t.sram_seq = ((gameboy_mem_init boot).sram_seq + 1) % 2 ^ 32 ∧
      t.mem = (gameboy_mem_init boot).mem :=
  ((sram_write_order (sampleRom Mapper.MBC3) (sampleEnv 0 grabDecoder) (gameboy_mem_init boot)
    0xB000 0x12).1 ⟨⟨by decide, by decide⟩, by decide⟩).2.1

end GameBoy
